import Mathlib

/-!
Shallow embedding of the rule-matching and incremental-analysis core of the
rust-guardian code-quality engine: the Path Filter (gitignore-style glob
filtering, src/patterns/path_filter.rs), the Pattern Engine (regex and
syntax-tree rules, src/patterns/mod.rs), the File Cache (src/cache/mod.rs)
and the configuration/registry construction (src/config/mod.rs,
src/analyzer/mod.rs).  Text is modelled as `List Char`; filesystem reads
(metadata, content digests, discovered ignore files) are passed in as
explicit values, so every definition is executable.
-/

set_option maxRecDepth 10000

namespace RustGuardian

/-- Text is modelled as a list of characters. -/
abbrev Str := List Char

/-- Shorthand turning a string literal into the `Str` model. -/
def cs (s : String) : Str := s.data

/-- `str::trim`: drop unicode whitespace from both ends (ASCII fragment). -/
def trimStr (s : Str) : Str :=
  ((s.dropWhile Char.isWhitespace).reverse.dropWhile Char.isWhitespace).reverse

/-- `str::contains(sub)`: substring test. -/
def isSubstr (needle : Str) : Str → Bool
  | [] => needle.isEmpty
  | c :: rest => needle.isPrefixOf (c :: rest) || isSubstr needle rest

/-- Loop of `str::replace`.  `fuel` starts at the length of the string and
every step consumes at least one character while spending exactly one unit
of fuel, so the `0` case (which leaves the rest unchanged) is unreachable. -/
def replaceAllAux (pat rep : Str) : Nat → Str → Str
  | _, [] => []
  | 0, s => s
  | fuel + 1, c :: rest =>
    if pat.isPrefixOf (c :: rest) ∧ 0 < pat.length then
      -- consume the whole occurrence: `(c :: rest).drop pat.length`
      rep ++ replaceAllAux pat rep fuel (rest.drop (pat.length - 1))
    else
      c :: replaceAllAux pat rep fuel rest

/-- `str::replace(pat, rep)`: replace every non-overlapping occurrence,
left to right.  Only called with a non-empty `pat` (`"{match}"` etc.). -/
def replaceAll (pat rep s : Str) : Str :=
  replaceAllAux pat rep s.length s

/-- Association-list lookup (model of `HashMap::get`). -/
def alookup {α β : Type} [DecidableEq α] : List (α × β) → α → Option β
  | [], _ => none
  | (k, v) :: rest, key => if k = key then some v else alookup rest key

/-- `HashMap::insert`: replace the entry for the key if present, else add it. -/
def insertReplace {α β : Type} [DecidableEq α] : List (α × β) → α → β → List (α × β)
  | [], k, v => [(k, v)]
  | (k', v') :: rest, k, v =>
    if k' = k then (k, v) :: rest else (k', v') :: insertReplace rest k v

/-- Remove the entry for a key (model of `HashMap::remove`). -/
def aremove {α β : Type} [DecidableEq α] : List (α × β) → α → List (α × β)
  | [], _ => []
  | (k', v') :: rest, k => if k' = k then rest else (k', v') :: aremove rest k

/-! ## The `glob` crate (as used by `PathFilter` and exclusion conditions)

`glob::Pattern` with the default `MatchOptions` (`case_sensitive = true`,
`require_literal_separator = false`, `require_literal_leading_dot = false`),
which is what both `Pattern::matches` and `Pattern::matches_path` use.
Path separators are `'/'` (unix). -/

/-- `glob::CharSpecifier`. -/
inductive CharSpecifier : Type
  | singleChar (c : Char)
  | charRange (lo hi : Char)
deriving DecidableEq, Repr

/-- `glob::PatternToken`. -/
inductive PatternToken : Type
  | char (c : Char)
  | anyChar
  | anySequence
  | anyRecursiveSequence
  | anyWithin (specs : List CharSpecifier)
  | anyExcept (specs : List CharSpecifier)
deriving DecidableEq, Repr

/-- `glob::parse_char_specifiers`. -/
def parseCharSpecifiers : Str → List CharSpecifier
  | a :: '-' :: b :: rest => .charRange a b :: parseCharSpecifiers rest
  | a :: rest => .singleChar a :: parseCharSpecifiers rest
  | [] => []

/-- `glob::Pattern::new`'s `'['` case: given the characters after the `'['`,
returns the parsed token and how many of those characters were consumed, or
`none` for an invalid range pattern (a construction error). -/
def parseCharClass (rest : Str) : Option (PatternToken × Nat) :=
  match rest with
  | '!' :: afterBang =>
    match afterBang with
    | _ :: tl =>
      -- search for `']'` from the second char after the bang onwards
      match (tl.findIdx? (· = ']')) with
      | some j =>
        let specs := afterBang.take (j + 1)
        some (.anyExcept (parseCharSpecifiers specs), j + 3)
      | none => none
    | [] => none
  | _ :: rtl =>
    -- no leading bang: search for `']'` from the second char onwards
    match (rtl.findIdx? (· = ']')) with
    | some j =>
      let specs := rest.take (j + 1)
      some (.anyWithin (parseCharSpecifiers specs), j + 2)
    | none => none
  | [] => none

/-- `glob::Pattern::new`.  `prev` is the character just before the current
position (`none` at the start); `acc` holds the tokens parsed so far in
reverse.  Returns `none` on a construction error (more than two consecutive
`*`s, a `**` not forming a whole path component, or an invalid `[` range).
`fuel` starts at the pattern length; every step consumes at least one
character while spending exactly one unit of fuel, so the `0` case is
unreachable. -/
def globParseAux : Nat → Option Char → List PatternToken → Str → Option (List PatternToken)
  | _, _, acc, [] => some acc.reverse
  | 0, _, _, _ => none
  | _, _, _, '*' :: '*' :: '*' :: _ => none   -- more than two consecutive `*`s
  | fuel + 1, prev, acc, '*' :: '*' :: rest' =>
    -- `**` must begin at the start or right after a separator
    if prev = none ∨ prev = some '/' then
      let push :=
        -- collapse consecutive recursive sequences
        -- (`tokens_len > 1 && tokens[tokens_len - 1] == AnyRecursiveSequence`)
        match acc with
        | .anyRecursiveSequence :: _ :: _ => acc
        | _ => .anyRecursiveSequence :: acc
      match rest' with
      | '/' :: rest'' => globParseAux fuel (some '/') push rest''
      | [] => some push.reverse
      | _ => none   -- `**` ends in a non-separator
    else none
  | fuel + 1, _, acc, '?' :: rest => globParseAux fuel (some '?') (.anyChar :: acc) rest
  | fuel + 1, _, acc, '*' :: rest => globParseAux fuel (some '*') (.anySequence :: acc) rest
  | fuel + 1, _, acc, '[' :: rest =>
    match parseCharClass rest with
    | some (tok, n) => globParseAux fuel (some ']') (tok :: acc) (rest.drop n)
    | none => none
  | fuel + 1, _, acc, c :: rest => globParseAux fuel (some c) (.char c :: acc) rest

/-- `glob::Pattern::new`: parse a pattern string into tokens. -/
def globParse (pat : Str) : Option (List PatternToken) :=
  globParseAux pat.length none [] pat

/-- `glob::in_char_specifiers` with `case_sensitive = true`. -/
def inCharSpecifiers (specs : List CharSpecifier) (c : Char) : Bool :=
  specs.any fun s =>
    match s with
    | .singleChar sc => c == sc
    | .charRange lo hi => decide (lo ≤ c) && decide (c ≤ hi)

/-- `glob::MatchResult`. -/
inductive MatchResult : Type
  | isMatch
  | subPatternDoesntMatch
  | entirePatternDoesntMatch
deriving DecidableEq, Repr

mutual

/-- `glob::Pattern::matches_from` with the default `MatchOptions`.
`followsSep` is true at the start of the string and right after a `/`.
Every recursive call strictly decreases the lexicographic measure
(tokens remaining, file remaining, phase), so a fuel of
`2 * (tokens + 1) * (file + 1)` bounds the recursion depth and the `0`
case is unreachable from `globMatches`. -/
def matchesFrom : Nat → List PatternToken → Bool → Str → MatchResult
  | _, [], _, file =>
    if file.isEmpty then .isMatch else .subPatternDoesntMatch
  | 0, _ :: _, _, _ => .entirePatternDoesntMatch
  | fuel + 1, tok :: rest, followsSep, file =>
    match tok with
    | .anySequence | .anyRecursiveSequence =>
      -- try the empty match first, then consume characters one at a time
      match matchesFrom fuel rest followsSep file with
      | .subPatternDoesntMatch => seqLoop fuel tok rest followsSep file
      | m => m
    | _ =>
      match file with
      | [] => .entirePatternDoesntMatch
      | c :: file' =>
        let isSep := c == '/'
        let ok :=
          match tok with
          | .anyChar => true
          | .anyWithin specs => inCharSpecifiers specs c
          | .anyExcept specs => !inCharSpecifiers specs c
          | .char c2 => c == c2
          | _ => false
        if ok then matchesFrom fuel rest isSep file' else .subPatternDoesntMatch

/-- The `while let Some(c) = file.next()` loop of the `AnySequence` /
`AnyRecursiveSequence` branch; when the file is exhausted the outer `for`
falls through to the remaining tokens with the running `follows_separator`. -/
def seqLoop : Nat → PatternToken → List PatternToken → Bool → Str → MatchResult
  | 0, _, _, _, _ => .entirePatternDoesntMatch
  | fuel + 1, _, rest, fsIn, [] => matchesFrom fuel rest fsIn []
  | fuel + 1, tok, rest, _, c :: file' =>
    let fs := c == '/'
    if tok = .anyRecursiveSequence ∧ fs = false then
      -- a recursive sequence only re-tries the remaining pattern after a separator
      seqLoop fuel tok rest fs file'
    else
      match matchesFrom fuel rest fs file' with
      | .subPatternDoesntMatch => seqLoop fuel tok rest fs file'
      | m => m

end

/-- `glob::Pattern::matches` (initial `follows_separator = true`). -/
def globMatches (toks : List PatternToken) (file : Str) : Bool :=
  match matchesFrom (2 * (toks.length + 1) * (file.length + 1)) toks true file with
  | .isMatch => true
  | _ => false

example : (globParse (cs "a/**")).map (globMatches · (cs "a/b/x")) = some true := by decide
example : (globParse (cs "a/b/**")).map (globMatches · (cs "a/b/x")) = some true := by decide
example : (globParse (cs "a/b/**")).map (globMatches · (cs "a/c/x")) = some false := by decide
example : (globParse (cs "a/**")).map (globMatches · (cs "a")) = some false := by decide
example : (globParse (cs "*.md")).map (globMatches · (cs "README.md")) = some true := by decide
example : (globParse (cs "docs/*.md")).map (globMatches · (cs "docs/x.md")) = some true := by decide
example : (globParse (cs "docs/*.md")).map (globMatches · (cs "sub/docs/x.md")) = some false := by decide
example : (globParse (cs "**")).map (globMatches · (cs "a/b")) = some true := by decide
example : (globParse (cs "[invalid")) = none := by decide
example : (globParse (cs "target/**")).map (globMatches · (cs "target/debug/lib.rs")) = some true := by decide

/-! ## Path Filter (`src/patterns/path_filter.rs`)

Candidate paths are modelled as lists of normal components (non-empty,
no separators, not `.` or `..`), which is the shape `find_files` feeds to
`should_analyze`.  `Path::to_string_lossy` is then the components joined
with `/`, `Path::file_name` the last component, `Path::parent` the list
without its last component, and `Path::strip_prefix` a list-prefix drop.
The candidates are regular files, so `path.is_dir()` is `false`. -/

/-- A filesystem path as a list of normal components. -/
abbrev RPath := List Str

/-- `Path::to_string_lossy` for a component-list path. -/
def pathString : RPath → Str
  | [] => []
  | [c] => c
  | c :: rest => c ++ '/' :: pathString rest

/-- `Path::file_name`. -/
def fileName (p : RPath) : Option Str := p.getLast?

/-- `struct FilterPattern`: compiled glob, polarity, original text. -/
structure FilterPattern : Type where
  pattern : List PatternToken
  is_include : Bool
  original : Str
deriving DecidableEq, Repr

/-- Strip the leading `'!'` of a pattern string, returning
`(is_include, rest)` (`str::strip_prefix('!')` in `PathFilter::new`,
`add_pattern` and `load_ignore_file`). -/
def stripBang : Str → Bool × Str
  | '!' :: rest => (true, rest)
  | s => (false, s)

/-- `PathFilter::new` on the static pattern list: any malformed glob makes
the whole construction fail. -/
def PathFilter.new (patterns : List Str) : Option (List FilterPattern) :=
  patterns.foldr
    (fun patternStr acc =>
      match acc with
      | none => none
      | some rest =>
        let (isInc, stripped) := stripBang patternStr
        match globParse stripped with
        | some toks => some ({ pattern := toks, is_include := isInc, original := stripped } :: rest)
        | none => none)
    (some [])

/-- `PathFilter::pattern_matches_path`: gitignore-style dispatch on the
shape of the original pattern text.  `isDir` is the `path.is_dir()` result
(always `false` for the regular-file candidates modelled here). -/
def pattern_matches_path (pat : FilterPattern) (path : RPath) (isDir : Bool) : Bool :=
  let pathStr := pathString path
  if pat.original.getLast? = some '/' then
    -- directory pattern: only matches directories
    if !isDir then false
    else
      match globParse (pat.original.reverse.dropWhile (· = '/')).reverse with
      | some toks => globMatches toks pathStr
      | none => false
  else if pat.original.head? = some '/' then
    -- anchored pattern: drop the leading slash and match the full path
    match globParse (pat.original.drop 1) with
    | some toks => globMatches toks pathStr
    | none => false
  else if pat.original.contains '/' then
    -- pattern contains a slash: match the full path
    globMatches pat.pattern pathStr
  else
    -- no slash: match the file name only
    match fileName path with
    | some name => globMatches pat.pattern name
    | none => false

/-- The static-pattern loop of `PathFilter::should_analyze`: start from
"include" and let every matching pattern overwrite the running decision
with its own polarity. -/
def staticDecision (patterns : List FilterPattern) (path : RPath) : Bool :=
  patterns.foldl
    (fun shouldInclude pat =>
      if pattern_matches_path pat path false then pat.is_include else shouldInclude)
    true

/-- The discovered ignore files: directory (as a component list) to the raw
lines of the ignore file sitting in it, `none` when that directory holds no
ignore file (`ignore_file.exists()`). -/
abbrev IgnoreEnv := List (RPath × List Str)

/-- `PathFilter::load_ignore_file`: trim each line, skip blanks and `#`
comments, strip a leading `!`, and skip (with a warning) lines whose glob
fails to parse. -/
def load_ignore_file (lines : List Str) : List FilterPattern :=
  lines.filterMap fun line =>
    let line := trimStr line
    if line.isEmpty ∨ line.head? = some '#' then none
    else
      let (isInc, stripped) := stripBang line
      match globParse stripped with
      | some toks => some { pattern := toks, is_include := isInc, original := stripped }
      | none => none

/-- The chain of directories visited by the upward walk of
`is_ignored_by_files`: the parent of the path (all but the last component),
then its parent, and so on down to the empty (root-most) relative
directory: `[p.take (n-1), …, p.take 1, p.take 0]`. -/
def parentChain (p : RPath) : List RPath :=
  (List.range p.length).reverse.map fun k => p.take k

/-- `Path::strip_prefix`. -/
def stripPathPrefix (p : RPath) (dir : RPath) : Option RPath :=
  if dir.isPrefixOf p then some (p.drop dir.length) else none

/-- `PathFilter::is_ignored_by_files`: walk from the file's parent up to the
root; at each directory holding an ignore file, apply its patterns in file
order to the path made relative to that directory, each match overwriting
the running `is_ignored` flag with the negation of its polarity. -/
def is_ignored_by_files (env : IgnoreEnv) (path : RPath) : Bool :=
  (parentChain path).foldl
    (fun isIgnored dir =>
      match alookup env dir with
      | none => isIgnored
      | some lines =>
        (load_ignore_file lines).foldl
          (fun isIgnored pat =>
            match stripPathPrefix path dir with
            | some relativePath =>
              if pattern_matches_path pat relativePath false then !pat.is_include else isIgnored
            | none => isIgnored)
          isIgnored)
    false

/-- `PathFilter::should_analyze`: static patterns first (an exclusion there
is final), then the discovered ignore files when enabled. -/
def should_analyze (patterns : List FilterPattern) (processIgnoreFiles : Bool)
    (env : IgnoreEnv) (path : RPath) : Bool :=
  if !staticDecision patterns path then false
  else if processIgnoreFiles then !is_ignored_by_files env path
  else true

example :
    (PathFilter.new [cs "target/**", cs "!target/special/**"]).map
      (fun ps => (should_analyze ps false [] [cs "target", cs "debug", cs "lib.rs"],
                  should_analyze ps false [] [cs "target", cs "special", cs "lib.rs"])) =
      some (false, true) := by decide

example :
    (PathFilter.new [cs "tests/**", cs "!tests/important.rs", cs "!*.rs"]).map
      (fun ps => (should_analyze ps false [] [cs "src", cs "lib.rs"],
                  should_analyze ps false [] [cs "tests", cs "unit.rs"])) =
      some (true, true) := by decide

example :
    (PathFilter.new []).map
      (fun ps =>
        let env : IgnoreEnv := [([], [cs "*.tmp", cs "tests/**", cs "!tests/important.rs"])]
        (should_analyze ps true env [cs "src", cs "lib.rs"],
         should_analyze ps true env [cs "temp.tmp"],
         should_analyze ps true env [cs "tests", cs "unit.rs"],
         should_analyze ps true env [cs "tests", cs "important.rs"])) =
      some (true, false, false, true) := by decide

example : PathFilter.new [cs "[invalid"] = none := by decide

/-! ## Regular expressions (fragment)

`PatternEngine` compiles text rules with `Regex::new` /
`RegexBuilder::case_insensitive`.  The embedding covers the fragment of
regex concrete forms exercised here — literal characters and the `\b` word
boundary, with optional case-insensitivity — with the `regex` crate's
leftmost, non-overlapping `find_iter` semantics.  Pattern strings outside
this fragment are not modelled (`compileRegex` returns `none` for them). -/

/-- A compiled regex token: a literal character or a `\b` word boundary. -/
inductive RegexTok : Type
  | lit (c : Char)
  | wordBoundary
deriving DecidableEq, Repr

/-- A compiled regex of the modelled fragment. -/
structure RegexProg : Type where
  toks : List RegexTok
  caseInsensitive : Bool
deriving DecidableEq, Repr

/-- Compile a pattern string of the modelled fragment (`Regex::new` /
`RegexBuilder::new(..).case_insensitive(true).build()`).  `\b` is the word
boundary; a backslash escapes a non-alphanumeric character; a plain
non-metacharacter stands for itself; anything else is outside the
fragment. -/
def compileRegexToks : Str → Option (List RegexTok)
  | [] => some []
  | '\\' :: 'b' :: rest => (compileRegexToks rest).map (.wordBoundary :: ·)
  | '\\' :: c :: rest =>
    if c.isAlphanum then none
    else (compileRegexToks rest).map (.lit c :: ·)
  | c :: rest =>
    if (cs "\\^$.|?*+()[]{}").contains c then none
    else (compileRegexToks rest).map (.lit c :: ·)

/-- Compile with the rule's case-sensitivity flag. -/
def compileRegex (pattern : Str) (caseSensitive : Bool) : Option RegexProg :=
  (compileRegexToks pattern).map fun toks =>
    { toks := toks, caseInsensitive := !caseSensitive }

/-- `\w` on the modelled (ASCII) alphabet. -/
def isWordChar (c : Char) : Bool := c.isAlphanum || c == '_'

/-- Whether the character at position `i` (if any) is a word character. -/
def wordAt (content : Str) (i : Nat) : Bool :=
  match content.get? i with
  | some c => isWordChar c
  | none => false

/-- `\b`: exactly one side of position `i` is a word character. -/
def boundaryAt (content : Str) (i : Nat) : Bool :=
  let prev := if i = 0 then false else wordAt content (i - 1)
  prev ≠ wordAt content i

/-- Run the compiled tokens from position `pos`, returning the end
position of the match.  Structural on the token list. -/
def execFrom (ci : Bool) (content : Str) : List RegexTok → Nat → Option Nat
  | [], pos => some pos
  | .wordBoundary :: rest, pos =>
    if boundaryAt content pos then execFrom ci content rest pos else none
  | .lit c :: rest, pos =>
    match content.get? pos with
    | some d =>
      if (if ci then d.toLower == c.toLower else d == c) then
        execFrom ci content rest (pos + 1)
      else none
    | none => none

/-- Length of the match of `prog` starting at `i`, if any. -/
def matchAt (prog : RegexProg) (content : Str) (i : Nat) : Option Nat :=
  (execFrom prog.caseInsensitive content prog.toks i).map (· - i)

/-- Leftmost match at or after `pos`; `remaining` starts at
`content.length + 1 - pos` so the search covers every start position up to
the end of the content. -/
def findFromAux (mAt : Nat → Option Nat) : Nat → Nat → Option (Nat × Nat)
  | 0, _ => none
  | remaining + 1, pos =>
    match mAt pos with
    | some len => some (pos, len)
    | none => findFromAux mAt remaining (pos + 1)

/-- `find_iter`: repeatedly take the leftmost match and resume right after
it (one character further on an empty match).  Each iteration advances the
search position by at least one, so `content.length + 1` iterations
suffice. -/
def findIterAux (mAt : Nat → Option Nat) (totalLen : Nat) : Nat → Nat → List (Nat × Nat)
  | 0, _ => []
  | fuel + 1, pos =>
    match findFromAux mAt (totalLen + 1 - pos) pos with
    | none => []
    | some (s, len) =>
      (s, len) :: findIterAux mAt totalLen fuel (if len = 0 then s + 1 else s + len)

/-- `Regex::find_iter` over the whole content. -/
def find_iter (prog : RegexProg) (content : Str) : List (Nat × Nat) :=
  findIterAux (matchAt prog content) content.length (content.length + 1) 0

/-! ## Locations, test files and exclusion conditions
(`src/patterns/mod.rs`) -/

/-- The scan loop of `PatternEngine::get_match_location`: walk the indexed
characters up to the match offset counting 1-indexed line and column and
remembering where the current line starts. -/
def locScan : Str → Nat → Nat → Nat → Nat → Nat → Nat × Nat × Nat
  | [], _, line, col, lineStart, _ => (line, col, lineStart)
  | ch :: rest, i, line, col, lineStart, offset =>
    if i ≥ offset then (line, col, lineStart)
    else if ch = '\n' then locScan rest (i + 1) (line + 1) 1 (i + 1) offset
    else locScan rest (i + 1) line (col + 1) lineStart offset

/-- `PatternEngine::get_match_location`: 1-indexed line and column of a
match offset plus the trimmed enclosing line as context. -/
def get_match_location (content : Str) (offset : Nat) : Nat × Nat × Str :=
  let (line, col, lineStart) := locScan content 0 1 1 0 offset
  let context := trimStr ((content.drop lineStart).takeWhile (· ≠ '\n'))
  (line, col, context)

/-- `Severity` (`src/domain/violations.rs`). -/
inductive Severity : Type
  | info
  | warning
  | error
deriving DecidableEq, Repr

/-- `ExcludeConditions` (`src/config/mod.rs`).  `attr` embeds the source
field `attribute` (that word is reserved in Lean). -/
structure ExcludeConditions : Type where
  attr : Option Str
  in_tests : Bool
  file_patterns : Option (List Str)
deriving DecidableEq, Repr

/-- `PatternEngine::is_test_file`: a `test`/`tests` path component, or a
file name containing `test` or starting with `test_`. -/
def is_test_file (path : RPath) : Bool :=
  path.any (fun component => component == cs "tests" || component == cs "test") ||
    (match fileName path with
     | some name => isSubstr (cs "test") name || (cs "test_").isPrefixOf name
     | none => false)

/-- `glob::Pattern::matches_path` on an exclusion glob given as a string:
globs that fail to parse are skipped (`if let Ok(glob_pattern)`). -/
def excludeGlobMatches (pattern : Str) (path : RPath) : Bool :=
  match globParse pattern with
  | some toks => globMatches toks (pathString path)
  | none => false

/-- `PatternEngine::should_exclude_match`: drop a regex match when the rule
excludes test files and the path is one, or when one of the configured
exclusion globs matches the path.  (The `attribute` condition and the
matched text, content and offset are not consulted.) -/
def should_exclude_match (conditions : Option ExcludeConditions) (path : RPath)
    (_matchedText : Str) (_content : Str) (_offset : Nat) : Bool :=
  match conditions with
  | none => false
  | some conds =>
    if conds.in_tests && is_test_file path then true
    else
      match conds.file_patterns with
      | some patterns => patterns.any (excludeGlobMatches · path)
      | none => false

/-- `PatternEngine::should_exclude_ast_match`: identical checks for
structural matches (the syntax tree and line are not consulted). -/
def should_exclude_ast_match (conditions : Option ExcludeConditions) (path : RPath)
    (_line : Nat) : Bool :=
  match conditions with
  | none => false
  | some conds =>
    if conds.in_tests && is_test_file path then true
    else
      match conds.file_patterns with
      | some patterns => patterns.any (excludeGlobMatches · path)
      | none => false

/-! ## Syntax-tree fragment (`syn`)

The structural matchers the claims exercise inspect item functions (their
name, return type and statement list, with call / path / tuple
expressions) and macro invocations.  `SynFile` models the parts of a
parsed `syn::File` those visitors look at; the `fns` and `macs` lists hold
every item function resp. macro invocation the `syn::visit` traversal
reaches, in traversal order.  Constructs outside the fragment are the
opaque `otherType` / `otherExpr` / `otherStmt`. -/

/-- `syn::Type` fragment: a type path is its segment identifiers. -/
inductive SynType : Type
  | path (segments : List Str)
  | otherType

/-- `syn::Expr` fragment. -/
inductive SynExpr : Type
  | call (func : SynExpr) (args : List SynExpr)
  | pathE (segments : List Str)
  | tuple (elems : List SynExpr)
  | otherExpr

/-- `syn::Stmt` fragment: `Stmt::Expr(expr, semi)` or any other statement. -/
inductive SynStmt : Type
  | exprStmt (e : SynExpr) (hasSemi : Bool)
  | otherStmt

/-- `syn::ItemFn` fragment: name, declared return type (`none` for the
default `()`), body statements. -/
structure ItemFn : Type where
  name : Str
  output : Option SynType
  stmts : List SynStmt

/-- A parsed file (fragment). -/
structure SynFile : Type where
  fns : List ItemFn
  macs : List (List Str)

/-- A file's content together with its `syn::parse_file` result
(`none` when the content does not parse). -/
structure FileContent : Type where
  text : Str
  parsed : Option SynFile

/-! ## Pattern engine (`src/patterns/mod.rs`) -/

/-- `AstPatternType`.  `macCall` embeds the source variant `MacroCall` and
`uBlock` the source variant `UnsafeBlock`.  `abstractionLayerViolation`
carries the built import-pattern string (its regex compilation, which the
source performs with a fallible `Regex::new`, is not modelled). -/
inductive AstPatternType : Type
  | macCall (names : List Str)
  | emptyOkReturn
  | missingArchitecturalHeader
  | emptyFunctionBody
  | unwrapOrExpectWithoutMessage
  | abstractionLayerViolation (importPattern : Str)
  | cyclomaticComplexity (threshold : Nat)
  | publicWithoutDocs
  | functionLinesGt (threshold : Nat)
  | nestingDepthGt (threshold : Nat)
  | functionArgsGt (threshold : Nat)
  | blockingCallInAsync
  | futureNotAwaited
  | selectWithoutBiased
  | genericWithoutBounds
  | testFnWithoutAssertion
  | implWithoutTrait
  | uBlock
  | ignoredTestAttribute
deriving DecidableEq, Repr

/-- `struct CompiledRegex`. -/
structure CompiledRegex : Type where
  regex : RegexProg
  rule_id : Str
  message_template : Str
  severity : Severity
  exclude_conditions : Option ExcludeConditions
deriving DecidableEq, Repr

/-- `struct AstPattern`. -/
structure AstPattern : Type where
  pattern_type : AstPatternType
  rule_id : Str
  message_template : Str
  severity : Severity
  exclude_conditions : Option ExcludeConditions
deriving DecidableEq, Repr

/-- `struct PatternMatch`. -/
structure PatternMatch : Type where
  rule_id : Str
  file_path : RPath
  line_number : Option Nat
  column_number : Option Nat
  matched_text : Str
  message : Str
  severity : Severity
  context : Option Str
deriving DecidableEq, Repr

/-- `struct PatternEngine`: the two registries, id to compiled matcher
(`HashMap`s, modelled as association lists). -/
structure PatternEngine : Type where
  regex_patterns : List (Str × CompiledRegex)
  ast_patterns : List (Str × AstPattern)
deriving DecidableEq, Repr

/-- `PatternEngine::new`. -/
def PatternEngine.new : PatternEngine := { regex_patterns := [], ast_patterns := [] }

/-- `PatternEngine::apply_regex_pattern`: every `find_iter` match that the
exclusion conditions do not drop becomes a `PatternMatch`, with 1-indexed
location and trimmed-line context from `get_match_location` and the
matched text substituted for `{match}` in the message template. -/
def apply_regex_pattern (pattern : CompiledRegex) (file_path : RPath) (content : Str) :
    List PatternMatch :=
  (find_iter pattern.regex content).filterMap fun sl =>
    let matched_text := (content.drop sl.1).take sl.2
    let loc := get_match_location content sl.1
    if should_exclude_match pattern.exclude_conditions file_path matched_text content sl.1 then
      none
    else
      some {
        rule_id := pattern.rule_id
        file_path := file_path
        line_number := some loc.1
        column_number := some loc.2.1
        matched_text := matched_text
        message := replaceAll (cs "{match}") matched_text pattern.message_template
        severity := pattern.severity
        context := some loc.2.2 }

/-- `PatternEngine::find_macro_calls` (named `find_mac_calls` here): every
visited macro invocation whose path is a single identifier among the
targets, reported at the synthetic position (1, 1) with context
`name!()`. -/
def find_mac_calls (tree : SynFile) (targetMacs : List Str) :
    List (Nat × Nat × Str × Str) :=
  tree.macs.filterMap fun segs =>
    match segs with
    | [ident] =>
      if targetMacs.contains ident then some (1, 1, ident, ident ++ cs "!()") else none
    | _ => none

/-- `EmptyOkVisitor::is_result_type`: the last segment of a type path is
`Result`. -/
def is_result_type (ty : SynType) : Bool :=
  match ty with
  | .path segments =>
    match segments.getLast? with
    | some seg => seg == cs "Result"
    | none => false
  | .otherType => false

/-- `EmptyOkVisitor::is_ok_unit_expr`: a call of the path ending in `Ok`
with the single argument `()`. -/
def is_ok_unit_expr (e : SynExpr) : Bool :=
  match e with
  | .call (.pathE segments) [arg] =>
    (match segments.getLast? with
     | some seg => seg == cs "Ok"
     | none => false) &&
    (match arg with
     | .tuple elems => elems.isEmpty
     | _ => false)
  | _ => false

/-- `EmptyOkVisitor::find_ok_unit_return`: the body is exactly one
expression statement which is `Ok(())`. -/
def find_ok_unit_return (stmts : List SynStmt) : Bool :=
  match stmts with
  | [.exprStmt e _] => is_ok_unit_expr e
  | _ => false

/-- `PatternEngine::find_empty_ok_returns`: each visited function whose
declared return type is a `Result` path and whose body is a single
`Ok(())` statement, at the synthetic position (1, 1) with empty
context. -/
def find_empty_ok_returns (tree : SynFile) : List (Nat × Nat × Str) :=
  tree.fns.filterMap fun f =>
    match f.output with
    | some returnType =>
      if is_result_type returnType && find_ok_unit_return f.stmts then
        some (1, 1, [])
      else none
    | none => none

/-- `PatternEngine::find_empty_function_bodies`: a function with no
statements, or whose single statement is the expression `()`. -/
def find_empty_function_bodies (tree : SynFile) : List (Nat × Nat × Str × Str) :=
  tree.fns.filterMap fun f =>
    match f.stmts with
    | [] => some (1, 1, f.name, cs "fn " ++ f.name ++ cs " { }")
    | [.exprStmt (.tuple []) _] => some (1, 1, f.name, cs "fn " ++ f.name ++ cs " { () }")
    | _ => none

/-- Decimal rendering of a number (`to_string`). -/
def natStr (n : Nat) : Str := (toString n).data

/-- `PatternEngine::find_cyclomatic_complexity`: the complexity calculator
starts at the base complexity 1 and adds for `if` / `while` / `for` /
`loop` / `match` / `?` expressions; the modelled fragment contains none of
those, so every function has complexity 1 and is flagged exactly when the
threshold is below 1. -/
def find_cyclomatic_complexity (tree : SynFile) (threshold : Nat) :
    List (Nat × Nat × Str × Nat × Str) :=
  tree.fns.filterMap fun f =>
    if 1 > threshold then
      some (1, 1, f.name, 1, cs "fn " ++ f.name ++ cs " (complexity: 1)")
    else none

/-- `GuardianError` (`src/domain/violations.rs`); the error message text is
not modelled, only which constructor produced it. -/
inductive GuardianErr : Type
  | patternErr
  | configErr
  | cacheErr
  | analysisErr
deriving DecidableEq, Repr

deriving instance DecidableEq for Except

/-- `PatternEngine::apply_ast_pattern`: a file that fails to parse yields
no structural matches and no error.  The branches for `MacroCall`,
`EmptyOkReturn`, `MissingArchitecturalHeader`, `EmptyFunctionBody` and
`CyclomaticComplexity` are translated; the remaining finders
(`find_unwrap_without_message`, `find_import_pattern_matches`,
`find_public_without_docs`, `find_long_functions`, `find_deep_nesting`,
`find_functions_with_many_args`, `find_blocking_in_async`,
`find_futures_not_awaited`, `find_select_without_biased`,
`find_generics_without_bounds`, `find_test_functions_without_assertions`,
`find_impl_without_trait`, `find_unsafe_blocks`, `find_ignored_tests`)
visit only constructs — method calls, use items, visibility and
attributes, generics, async and unsafe blocks, impl blocks, pretty-printed
line counts — that the modelled syntax fragment does not represent, so on
every modelled tree their accumulators stay empty and those branches
produce no matches.  No claim depends on them. -/
def apply_ast_pattern (pattern : AstPattern) (file_path : RPath) (content : FileContent) :
    List PatternMatch :=
  match content.parsed with
  | none => []   -- parse failure: skip structural analysis for this file
  | some tree =>
    match pattern.pattern_type with
    | .macCall targetMacs =>
      (find_mac_calls tree targetMacs).filterMap fun found =>
        if should_exclude_ast_match pattern.exclude_conditions file_path found.1 then none
        else
          some {
            rule_id := pattern.rule_id
            file_path := file_path
            line_number := some found.1
            column_number := some found.2.1
            matched_text := found.2.2.1 ++ cs "!()"
            message := replaceAll (cs "{macro_name}") found.2.2.1 pattern.message_template
            severity := pattern.severity
            context := some found.2.2.2 }
    | .emptyOkReturn =>
      (find_empty_ok_returns tree).filterMap fun found =>
        if should_exclude_ast_match pattern.exclude_conditions file_path found.1 then none
        else
          some {
            rule_id := pattern.rule_id
            file_path := file_path
            line_number := some found.1
            column_number := some found.2.1
            matched_text := cs "Ok(())"
            message := pattern.message_template
            severity := pattern.severity
            context := some found.2.2 }
    | .missingArchitecturalHeader =>
      if !isSubstr (cs "Architectural Principle:") content.text then
        [{ rule_id := pattern.rule_id
           file_path := file_path
           line_number := some 1
           column_number := some 1
           matched_text := []
           message := pattern.message_template
           severity := pattern.severity
           context := none }]
      else []
    | .emptyFunctionBody =>
      (find_empty_function_bodies tree).filterMap fun found =>
        if should_exclude_ast_match pattern.exclude_conditions file_path found.1 then none
        else
          some {
            rule_id := pattern.rule_id
            file_path := file_path
            line_number := some found.1
            column_number := some found.2.1
            matched_text := cs "fn " ++ found.2.2.1
            message := replaceAll (cs "{function_name}") found.2.2.1 pattern.message_template
            severity := pattern.severity
            context := some found.2.2.2 }
    | .cyclomaticComplexity threshold =>
      (find_cyclomatic_complexity tree threshold).filterMap fun found =>
        if should_exclude_ast_match pattern.exclude_conditions file_path found.1 then none
        else
          some {
            rule_id := pattern.rule_id
            file_path := file_path
            line_number := some found.1
            column_number := some found.2.1
            matched_text := cs "fn " ++ found.2.2.1
            message := replaceAll (cs "{value}") (natStr found.2.2.2.1) pattern.message_template
            severity := pattern.severity
            context := some found.2.2.2.2 }
    | _ => []

/-- `Path::extension`: the part of the file name after its last dot,
provided that dot is not the leading character. -/
def extOf (p : RPath) : Option Str :=
  match fileName p with
  | none => none
  | some name =>
    let rev := name.reverse
    let extRev := rev.takeWhile (· ≠ '.')
    match rev.dropWhile (· ≠ '.') with
    | [] => none          -- no dot in the file name
    | [_] => none         -- the only dot is the leading character
    | _ :: _ :: _ => some extRev.reverse

/-- `PatternEngine::analyze_file`: apply every compiled regex pattern to
the content, then — only for files whose extension is `rs` — every
structural pattern; always succeeds. -/
def analyze_file (engine : PatternEngine) (file_path : RPath) (content : FileContent) :
    Except GuardianErr (List PatternMatch) :=
  let regexMatches :=
    engine.regex_patterns.foldl
      (fun acc idPat => acc ++ apply_regex_pattern idPat.2 file_path content.text) []
  let allMatches :=
    if extOf file_path = some (cs "rs") then
      engine.ast_patterns.foldl
        (fun acc idPat => acc ++ apply_ast_pattern idPat.2 file_path content) regexMatches
    else regexMatches
  .ok allMatches

/-! ## Rule configuration and registry construction
(`src/config/mod.rs`, `PatternEngine::add_rule`, `Analyzer::new`) -/

/-- `RuleType`. -/
inductive RuleType : Type
  | regex
  | ast
  | semantic
  | importAnalysis
deriving DecidableEq, Repr

/-- `PatternRule` (`src/config/mod.rs`). -/
structure PatternRule : Type where
  id : Str
  rule_type : RuleType
  pattern : Str
  message : Str
  severity : Option Severity
  enabled : Bool
  case_sensitive : Bool
  exclude_if : Option ExcludeConditions
deriving DecidableEq, Repr

/-- `PatternCategory`. -/
structure PatternCategory : Type where
  severity : Severity
  enabled : Bool
  rules : List PatternRule
deriving DecidableEq, Repr

/-- `PathConfig`. -/
structure PathConfig : Type where
  patterns : List Str
  ignore_file : Option Str
deriving DecidableEq, Repr

/-- `GuardianConfig`; the category map is modelled as an association
list. -/
structure GuardianConfig : Type where
  version : Str
  paths : PathConfig
  patterns : List (Str × PatternCategory)
deriving DecidableEq, Repr

/-- `GuardianConfig::effective_severity`: the rule's override, else the
category default. -/
def effective_severity (category : PatternCategory) (rule : PatternRule) : Severity :=
  rule.severity.getD category.severity

/-- `str::strip_prefix`. -/
def stripPre (pre s : Str) : Option Str :=
  if pre.isPrefixOf s then some (s.drop pre.length) else none

/-- `str::split(sep)`: split on a character, keeping empty pieces. -/
def splitChar (sep : Char) : Str → List Str
  | [] => [[]]
  | c :: rest =>
    if c = sep then [] :: splitChar sep rest
    else
      match splitChar sep rest with
      | piece :: pieces => (c :: piece) :: pieces
      | [] => [[c]]

/-- `str::parse::<u32>()` (overflow beyond `u32` is not modelled; the
thresholds used are small). -/
def parseNat (s : Str) : Option Nat :=
  if s ≠ [] ∧ s.all Char.isDigit then
    some (s.foldl (fun n c => n * 10 + (c.toNat - 48)) 0)
  else none

/-- `PatternEngine::parse_ast_pattern`: dispatch on the descriptor
string. -/
def parse_ast_pattern (pattern : Str) : Except GuardianErr AstPatternType :=
  match stripPre (cs "macro_call:") pattern with
  | some names => .ok (.macCall ((splitChar '|' names).map trimStr))
  | none =>
    if pattern = cs "return_ok_unit_with_no_logic" then .ok .emptyOkReturn
    else if isSubstr (cs "Architectural Principle:") pattern then .ok .missingArchitecturalHeader
    else if pattern = cs "empty_function_body" then .ok .emptyFunctionBody
    else if pattern = cs "unwrap_or_expect_without_message" then .ok .unwrapOrExpectWithoutMessage
    else if pattern = cs "unsafe_block" then .ok .uBlock
    else if pattern = cs "ignored_test_attribute" then .ok .ignoredTestAttribute
    else .error .patternErr   -- unknown AST pattern type

/-- `PatternEngine::parse_semantic_pattern`: parametric thresholds first,
then fixed keywords, then the import-pattern fallback recognized by naming
convention; anything else is a compile error.  (The fallback's
`Regex::new` on the built import pattern is modelled as succeeding; its
failure arm is not exercised by any claim.) -/
def parse_semantic_pattern (pattern : Str) : Except GuardianErr AstPatternType :=
  match stripPre (cs "cyclomatic_complexity_gt:") pattern with
  | some param =>
    match parseNat param with
    | some threshold => .ok (.cyclomaticComplexity threshold)
    | none => .error .patternErr   -- invalid threshold
  | none =>
  match stripPre (cs "function_lines_gt:") pattern with
  | some param =>
    match parseNat param with
    | some threshold => .ok (.functionLinesGt threshold)
    | none => .error .patternErr
  | none =>
  match stripPre (cs "nesting_depth_gt:") pattern with
  | some param =>
    match parseNat param with
    | some threshold => .ok (.nestingDepthGt threshold)
    | none => .error .patternErr
  | none =>
  match stripPre (cs "function_args_gt:") pattern with
  | some param =>
    match parseNat param with
    | some threshold => .ok (.functionArgsGt threshold)
    | none => .error .patternErr
  | none =>
    if pattern = cs "public_without_docs" then .ok .publicWithoutDocs
    else if pattern = cs "blocking_call_in_async" then .ok .blockingCallInAsync
    else if pattern = cs "future_not_awaited" then .ok .futureNotAwaited
    else if pattern = cs "select_without_biased" then .ok .selectWithoutBiased
    else if pattern = cs "generic_without_bounds" then .ok .genericWithoutBounds
    else if pattern = cs "test_fn_without_assertion" then .ok .testFnWithoutAssertion
    else if pattern = cs "impl_without_trait" then .ok .implWithoutTrait
    else if (cs "use").isPrefixOf pattern ∨ (cs "import:").isPrefixOf pattern ∨
        isSubstr (cs "_access") pattern then
      let importPattern :=
        if (cs "use").isPrefixOf pattern then pattern
        else if (cs "import:").isPrefixOf pattern then replaceAll (cs "import:") [] pattern
        else cs "use\\s+.*" ++ replaceAll (cs "_access") [] (replaceAll (cs "direct_") [] pattern)
      .ok (.abstractionLayerViolation importPattern)
    else .error .patternErr   -- unknown semantic pattern type

/-- `PatternEngine::add_rule`: compile the rule and insert it into the
matching registry under its id (`HashMap::insert`: a second rule with the
same id replaces the first).  A regex pattern outside the modelled
fragment is treated as failing to compile. -/
def add_rule (engine : PatternEngine) (rule : PatternRule) (effectiveSeverity : Severity) :
    Except GuardianErr PatternEngine :=
  match rule.rule_type with
  | .regex =>
    match compileRegex rule.pattern rule.case_sensitive with
    | some prog =>
      .ok { engine with
              regex_patterns :=
                insertReplace engine.regex_patterns rule.id
                  { regex := prog
                    rule_id := rule.id
                    message_template := rule.message
                    severity := effectiveSeverity
                    exclude_conditions := rule.exclude_if } }
    | none => .error .patternErr   -- invalid regex
  | .ast =>
    (parse_ast_pattern rule.pattern).map fun patternType =>
      { engine with
          ast_patterns :=
            insertReplace engine.ast_patterns rule.id
              { pattern_type := patternType
                rule_id := rule.id
                message_template := rule.message
                severity := effectiveSeverity
                exclude_conditions := rule.exclude_if } }
  | .semantic | .importAnalysis =>
    (parse_semantic_pattern rule.pattern).map fun patternType =>
      { engine with
          ast_patterns :=
            insertReplace engine.ast_patterns rule.id
              { pattern_type := patternType
                rule_id := rule.id
                message_template := rule.message
                severity := effectiveSeverity
                exclude_conditions := rule.exclude_if } }

/-- `struct Analyzer` (the parts built by `Analyzer::new`). -/
structure Analyzer : Type where
  pattern_engine : PatternEngine
  path_filter : List FilterPattern
  process_ignore_files : Bool
deriving DecidableEq, Repr

/-- `Analyzer::new`: load every enabled rule of every enabled category into
the pattern engine (any `add_rule` failure aborts the build), then build
the path filter. -/
def Analyzer.new (config : GuardianConfig) : Except GuardianErr Analyzer := do
  let engine ← config.patterns.foldlM
    (fun engine namedCategory => do
      let category := namedCategory.2
      if !category.enabled then
        pure engine
      else
        category.rules.foldlM
          (fun engine rule =>
            if !rule.enabled then
              pure engine
            else
              add_rule engine rule (effective_severity category rule))
          engine)
    PatternEngine.new
  let ignoreFile :=
    if config.paths.ignore_file = some [] then none else config.paths.ignore_file
  match PathFilter.new config.paths.patterns with
  | some filterPatterns =>
    .ok { pattern_engine := engine
          path_filter := filterPatterns
          process_ignore_files := ignoreFile.isSome }
  | none => .error .configErr

/-- The per-rule body of `GuardianConfig::validate`'s loop: a duplicate-id
check within the rule's category, then a compile check for regex rules. -/
def validateRule (category : PatternCategory) (rule : PatternRule) :
    Except GuardianErr Unit :=
  if (category.rules.filter (fun r => r.id = rule.id)).length > 1 then
    .error .configErr   -- duplicate rule id in category
  else if rule.rule_type = .regex then
    match compileRegex rule.pattern rule.case_sensitive with
    | some _ => .ok ()
    | none => .error .configErr   -- invalid regex pattern
  else .ok ()

/-- The per-category body of `GuardianConfig::validate`'s loop. -/
def validateCategory (namedCategory : Str × PatternCategory) : Except GuardianErr Unit :=
  namedCategory.2.rules.foldlM (fun _ rule => validateRule namedCategory.2 rule) ()

/-- `GuardianConfig::validate`: version check, then the per-category,
per-rule checks. -/
def GuardianConfig.validate (config : GuardianConfig) : Except GuardianErr Unit :=
  if config.version ≠ cs "1.0" then
    .error .configErr   -- unsupported configuration version
  else
    config.patterns.foldlM (fun _ namedCategory => validateCategory namedCategory) ()

/-! ## File Cache (`src/cache/mod.rs`)

Filesystem reads (`fs::metadata`, the SHA-256 digest of the current
content, timestamps) are passed in as explicit values. -/

/-- `FileEntry`. -/
structure FileEntry : Type where
  content_hash : Str
  size : Nat
  modified_at : Nat
  violation_count : Nat
  analyzed_at : Nat
  config_fingerprint : Str
deriving DecidableEq, Repr

/-- `CacheMetadata`. -/
structure CacheMetadata : Type where
  created_at : Nat
  updated_at : Nat
  hits : Nat
  misses : Nat
deriving DecidableEq, Repr

/-- `CacheData`. -/
structure CacheData : Type where
  version : Nat
  config_fingerprint : Option Str
  files : List (RPath × FileEntry)
  metadata : CacheMetadata
deriving DecidableEq, Repr

/-- `FileCache` (the cache-file path lives outside the model). -/
structure FileCache : Type where
  data : CacheData
  dirty : Bool
deriving DecidableEq, Repr

/-- `FileCache::load` when no cache file exists: a fresh store, dirty. -/
def loadFresh (now : Nat) : FileCache :=
  { data :=
      { version := 1
        config_fingerprint := none
        files := []
        metadata := { created_at := now, updated_at := now, hits := 0, misses := 0 } }
    dirty := true }

/-- `FileCache::needs_analysis`: current file size, modification time and
content digest are passed in.  Checks run cheapest first — entry
existence, then size/mtime, then the configuration fingerprint, then the
content digest; every outcome bumps exactly one counter and marks the
store dirty. -/
def needs_analysis (cache : FileCache) (file_path : RPath)
    (currentSize currentModified : Nat) (currentHash : Str)
    (config_fingerprint : Str) : Bool × FileCache :=
  let meta := cache.data.metadata
  match alookup cache.data.files file_path with
  | some entry =>
    if entry.size ≠ currentSize ∨ entry.modified_at ≠ currentModified then
      (true, { cache with
                 data := { cache.data with metadata := { meta with misses := meta.misses + 1 } }
                 dirty := true })
    else if entry.config_fingerprint ≠ config_fingerprint then
      (true, { cache with
                 data := { cache.data with metadata := { meta with misses := meta.misses + 1 } }
                 dirty := true })
    else if entry.content_hash ≠ currentHash then
      (true, { cache with
                 data := { cache.data with metadata := { meta with misses := meta.misses + 1 } }
                 dirty := true })
    else
      (false, { cache with
                  data := { cache.data with metadata := { meta with hits := meta.hits + 1 } }
                  dirty := true })
  | none =>
    (true, { cache with
               data := { cache.data with metadata := { meta with misses := meta.misses + 1 } }
               dirty := true })

/-- `FileCache::update_entry`: recompute digest and metadata (passed in)
and unconditionally replace the entry. -/
def update_entry (cache : FileCache) (file_path : RPath) (violation_count : Nat)
    (config_fingerprint : Str) (currentSize currentModified : Nat) (currentHash : Str)
    (now : Nat) : FileCache :=
  { cache with
      data :=
        { cache.data with
            files :=
              insertReplace cache.data.files file_path
                { content_hash := currentHash
                  size := currentSize
                  modified_at := currentModified
                  violation_count := violation_count
                  analyzed_at := now
                  config_fingerprint := config_fingerprint } }
      dirty := true }

/-- `CacheStatistics` (the `f64` hit rate is modelled as a rational). -/
structure CacheStatistics : Type where
  total_files : Nat
  cache_hits : Nat
  cache_misses : Nat
  hit_rate : ℚ
  created_at : Nat
  updated_at : Nat
deriving DecidableEq, Repr

/-- `FileCache::statistics`. -/
def statistics (cache : FileCache) : CacheStatistics :=
  let meta := cache.data.metadata
  { total_files := cache.data.files.length
    cache_hits := meta.hits
    cache_misses := meta.misses
    hit_rate :=
      if meta.hits + meta.misses > 0 then
        (meta.hits : ℚ) / ((meta.hits : ℚ) + (meta.misses : ℚ))
      else 0
    created_at := meta.created_at
    updated_at := meta.updated_at }

/-- `FileCache::clear`: drop all entries, reset both counters to zero,
touch `updated_at`, mark dirty (and remove the on-disk file). -/
def cacheClear (cache : FileCache) (now : Nat) : FileCache :=
  { cache with
      data :=
        { cache.data with
            files := []
            metadata :=
              { cache.data.metadata with hits := 0, misses := 0, updated_at := now } }
      dirty := true }

/-- `FileCache::cleanup`: drop entries whose file no longer exists
(`existing` lists the paths still present); counters untouched, dirty only
when something was removed. -/
def cleanup (cache : FileCache) (existing : List RPath) : Nat × FileCache :=
  let kept := cache.data.files.filter (fun entry => existing.contains entry.1)
  let removed := cache.data.files.length - kept.length
  (removed,
   { cache with
       data := { cache.data with files := kept }
       dirty := cache.dirty || removed > 0 })

/-- `FileCache::save`: skipped when nothing changed; otherwise touch
`updated_at`, write, and clear the dirty flag. -/
def cacheSave (cache : FileCache) (now : Nat) : FileCache :=
  if !cache.dirty then cache
  else
    { cache with
        data := { cache.data with metadata := { cache.data.metadata with updated_at := now } }
        dirty := false }

/-- One in-process cache operation, with the filesystem values it reads
passed as data. -/
inductive CacheOp : Type
  | needsAnalysisOp (path : RPath) (size mtime : Nat) (hash fp : Str)
  | updateEntryOp (path : RPath) (violationCount : Nat) (fp : Str)
      (size mtime : Nat) (hash : Str) (now : Nat)
  | cleanupOp (existing : List RPath)
  | saveOp (now : Nat)
  | statisticsOp
  | clearOp (now : Nat)
deriving DecidableEq, Repr

/-- Whether an operation is `clear`. -/
def CacheOp.isClear : CacheOp → Bool
  | .clearOp _ => true
  | _ => false

/-- State transition of one cache operation (`statistics` reads without
mutating). -/
def stepCache (cache : FileCache) : CacheOp → FileCache
  | .needsAnalysisOp path size mtime hash fp =>
    (needs_analysis cache path size mtime hash fp).2
  | .updateEntryOp path violationCount fp size mtime hash now =>
    update_entry cache path violationCount fp size mtime hash now
  | .cleanupOp existing => (cleanup cache existing).2
  | .saveOp now => cacheSave cache now
  | .statisticsOp => cache
  | .clearOp now => cacheClear cache now

/-- Run a sequence of cache operations. -/
def runCache (cache : FileCache) (ops : List CacheOp) : FileCache :=
  ops.foldl stepCache cache

/-! ## Specification-side definitions

These restate parts of the specification in closed form, to be compared
with the translated code. -/

/-- Last-match-wins as the specification words it: the polarity of the
last pattern matching the path, include by default. -/
def lastMatchWins (patterns : List FilterPattern) (path : RPath) : Bool :=
  (((patterns.filter (fun pat => pattern_matches_path pat path false)).getLast?).map
    (fun pat => pat.is_include)).getD true

/-- The ignore-file entries in the order the walk of
`is_ignored_by_files` visits them: deepest directory first, file order
within a directory. -/
def entriesOfDirs (env : IgnoreEnv) : List RPath → List (RPath × FilterPattern)
  | [] => []
  | dir :: rest =>
    (match alookup env dir with
     | none => []
     | some lines => (load_ignore_file lines).map (fun pat => (dir, pat))) ++
      entriesOfDirs env rest

/-- Whether one walked ignore-file entry matches the path (the path made
relative to the entry's directory). -/
def entryMatches (path : RPath) (entry : RPath × FilterPattern) : Bool :=
  match stripPathPrefix path entry.1 with
  | some relativePath => pattern_matches_path entry.2 relativePath false
  | none => false

/-- The combined ignore-file decision in closed form: the last matching
entry of the walk decides (ignored iff it is not an include pattern); not
ignored by default. -/
def ignoreLastMatch (env : IgnoreEnv) (path : RPath) : Bool :=
  ((((entriesOfDirs env (parentChain path)).filter (entryMatches path)).getLast?).map
    (fun entry => !entry.2.is_include)).getD false

/-- Modelled from the spec: the combined decision claim C1 describes — one
single last-match-wins fold whose stream is the static patterns followed
by the discovered ignore-file entries ordered so that deeper directories
come later (override earlier ones), each entry matched against the path
relative to its directory, `!` entries flipping the decision back to
include. -/
def claimCombinedDecision (patterns : List FilterPattern) (env : IgnoreEnv)
    (path : RPath) : Bool :=
  let afterStatic :=
    patterns.foldl
      (fun decision pat =>
        if pattern_matches_path pat path false then pat.is_include else decision)
      true
  ((entriesOfDirs env (parentChain path)).reverse).foldl
    (fun decision entry =>
      if entryMatches path entry then entry.2.is_include else decision)
    afterStatic

/-- A structural rule under the duplicate id `dup`. -/
def ruleDupA : PatternRule :=
  { id := cs "dup"
    rule_type := .ast
    pattern := cs "return_ok_unit_with_no_logic"
    message := cs "first"
    severity := none
    enabled := true
    case_sensitive := false
    exclude_if := none }

/-- A second, different structural rule under the same id `dup`. -/
def ruleDupB : PatternRule :=
  { ruleDupA with pattern := cs "unsafe_block", message := cs "second" }

/-- A category holding two rules with the same id. -/
def catDup : PatternCategory :=
  { severity := .error, enabled := true, rules := [ruleDupA, ruleDupB] }

/-- A configuration whose single category holds two rules with the same
id. -/
def cfgDup : GuardianConfig :=
  { version := cs "1.0"
    paths := { patterns := [], ignore_file := none }
    patterns := [(cs "cat", catDup)] }

/-- Modelled from the spec: the exclusion policy claim C6 describes — a
candidate is dropped when the test-file flag applies, a configured glob
matches, or an attribute-marker condition is set and the structural
context confirms the attribute (`attrConfirmed`). -/
def claimShouldDrop (conds : ExcludeConditions) (path : RPath) (attrConfirmed : Bool) : Bool :=
  (conds.in_tests && is_test_file path) ||
    (match conds.file_patterns with
     | some pats => pats.any (excludeGlobMatches · path)
     | none => false) ||
    (conds.attr.isSome && attrConfirmed)

/-- Exclusion conditions carrying only an attribute marker. -/
def condsAttrOnly : ExcludeConditions :=
  { attr := some (cs "#[test]"), in_tests := false, file_patterns := none }

/-- The predicate `find_empty_ok_returns` applies to one function. -/
def emptyOkFlagged (f : ItemFn) : Bool :=
  (match f.output with
   | some ty => is_result_type ty
   | none => false) && find_ok_unit_return f.stmts

/-- `fn f() -> Result<(), E> { Ok(()) }`. -/
def fnOkUnit : ItemFn :=
  { name := cs "f"
    output := some (.path [cs "Result"])
    stmts := [.exprStmt (.call (.pathE [cs "Ok"]) [.tuple []]) false] }

/-- A `Result`-returning function whose `Ok(())` is preceded by another
statement. -/
def fnWithPrecedingStmt : ItemFn :=
  { name := cs "g"
    output := some (.path [cs "Result"])
    stmts := [.otherStmt, .exprStmt (.call (.pathE [cs "Ok"]) [.tuple []]) false] }

/-- A parsed file holding both functions. -/
def treeOkUnit : SynFile := { fns := [fnOkUnit, fnWithPrecedingStmt], macs := [] }

/-- A compiled trivial-success-body structural rule. -/
def astPatternEOR : AstPattern :=
  { pattern_type := .emptyOkReturn
    rule_id := cs "no-empty-ok"
    message_template := cs "Function only returns Ok(())"
    severity := .error
    exclude_conditions := none }

/-- An engine holding only the trivial-success-body structural rule. -/
def engineAstOnly : PatternEngine :=
  { regex_patterns := [], ast_patterns := [(cs "no-empty-ok", astPatternEOR)] }

/-- Content that fails to parse. -/
def contentUnparsed : FileContent := { text := cs "fn f( \x7b", parsed := none }

/-- Content that parses to `treeOkUnit`. -/
def contentParsed : FileContent :=
  { text := cs "fn f() -> Result<(), E> { Ok(()) }", parsed := some treeOkUnit }

/-- The compiled form of the case-insensitive bare-word `TODO` regex
(`\bTODO\b`). -/
def progTODO : RegexProg :=
  { toks := [.wordBoundary, .lit 'T', .lit 'O', .lit 'D', .lit 'O', .wordBoundary]
    caseInsensitive := true }

/-- A case-insensitive bare-word TODO text rule. -/
def ruleTODO : CompiledRegex :=
  { regex := progTODO
    rule_id := cs "todo_comments"
    message_template := cs "Development marker detected: {match}"
    severity := .error
    exclude_conditions := none }

/-- The end-to-end example content. -/
def contentTODO : Str := cs "// TODO: x\nfn f() {}"

/-- Number of line breaks among the characters preceding the offset,
plus one (the spec's 1-indexed line). -/
def specLine (content : Str) (offset : Nat) : Nat :=
  1 + ((content.take offset).filter (· = '\n')).length

/-- The characters between the last line break before the offset and the
offset, reversed. -/
def specTail (content : Str) (offset : Nat) : Str :=
  (content.take offset).reverse.takeWhile (· ≠ '\n')

/-- 1-indexed column: one more than the number of characters since the
last line break before the offset. -/
def specCol (content : Str) (offset : Nat) : Nat :=
  1 + (specTail content offset).length

/-- Start position of the line enclosing the offset. -/
def specLineStart (content : Str) (offset : Nat) : Nat :=
  (content.take offset).length - (specTail content offset).length

/-- The trimmed enclosing line. -/
def specContext (content : Str) (offset : Nat) : Str :=
  trimStr ((content.drop (specLineStart content offset)).takeWhile (· ≠ '\n'))

/-! ## Theorems -/

/-- A fold that overwrites its accumulator whenever a predicate holds
computes the image of the last element satisfying the predicate (the
default when none does). -/
theorem foldl_overwrite_lastMatch {α : Type} (f g : α → Bool) (l : List α) (d : Bool) :
    l.foldl (fun acc x => if f x then g x else acc) d =
      (((l.filter f).getLast?).map g).getD d := by
  induction l generalizing d with
  | nil => rfl
  | cons x xs ih =>
    simp only [List.foldl_cons, List.filter_cons]
    cases hx : f x with
    | true =>
      simp only [hx, if_true]
      rw [ih]
      cases hfx : xs.filter f with
      | nil => simp
      | cons y ys =>
        have hs : ((y :: ys).getLast?).isSome := by simp
        obtain ⟨z, hz⟩ := Option.isSome_iff_exists.mp hs
        simp [List.getLast?_cons_cons, hz]
    | false =>
      simp only [hx, Bool.false_eq_true, if_false]
      rw [ih]

/-- C2: the static-pattern decision of `should_analyze` is a fold from the
default "include" in which each matching pattern overwrites the running
decision with its polarity — equivalently, the last matching pattern wins;
on the pattern list `["a/**", "!a/b/**"]` the path `a/b/x` is included and
`a/c/x` is excluded. -/
theorem c2_static_patterns_last_match_wins :
    (∀ (patterns : List FilterPattern) (path : RPath),
        staticDecision patterns path = lastMatchWins patterns path) ∧
    (PathFilter.new [cs "a/**", cs "!a/b/**"]).map
        (fun ps => (should_analyze ps false [] [cs "a", cs "b", cs "x"],
                    should_analyze ps false [] [cs "a", cs "c", cs "x"])) =
      some (true, false) := by
  refine ⟨fun patterns path => ?_, by decide⟩
  exact foldl_overwrite_lastMatch
    (fun pat => pattern_matches_path pat path false) (fun pat => pat.is_include) patterns true

/-- The per-directory inner loop of `is_ignored_by_files` equals a fold
over the directory's entries tagged with their directory. -/
theorem inner_fold_entries (path dir : RPath) (pats : List FilterPattern) (d : Bool) :
    pats.foldl
      (fun isIgnored pat =>
        match stripPathPrefix path dir with
        | some relativePath =>
          if pattern_matches_path pat relativePath false then !pat.is_include else isIgnored
        | none => isIgnored) d =
    (pats.map (fun pat => (dir, pat))).foldl
      (fun isIgnored entry =>
        if entryMatches path entry then !entry.2.is_include else isIgnored) d := by
  induction pats generalizing d with
  | nil => rfl
  | cons p ps ih =>
    simp only [List.foldl_cons, List.map_cons]
    rw [ih]
    congr 1
    unfold entryMatches
    cases hs : stripPathPrefix path dir <;> simp

/-- The upward walk of `is_ignored_by_files` equals one fold over the
flattened stream of discovered ignore-file entries. -/
theorem dirs_fold_entries (env : IgnoreEnv) (path : RPath) (dirs : List RPath) (d : Bool) :
    dirs.foldl
      (fun isIgnored dir =>
        match alookup env dir with
        | none => isIgnored
        | some lines =>
          (load_ignore_file lines).foldl
            (fun isIgnored pat =>
              match stripPathPrefix path dir with
              | some relativePath =>
                if pattern_matches_path pat relativePath false then !pat.is_include
                else isIgnored
              | none => isIgnored)
            isIgnored)
      d =
    (entriesOfDirs env dirs).foldl
      (fun isIgnored entry =>
        if entryMatches path entry then !entry.2.is_include else isIgnored)
      d := by
  induction dirs generalizing d with
  | nil => rfl
  | cons dir rest ih =>
    simp only [List.foldl_cons, entriesOfDirs, List.foldl_append]
    rw [← ih]
    congr 1
    cases h : alookup env dir with
    | none => rfl
    | some lines => exact inner_fold_entries path dir (load_ignore_file lines) d

/-- The ignore-file walk in closed form: the last matching discovered
entry decides. -/
theorem is_ignored_eq_lastMatch (env : IgnoreEnv) (path : RPath) :
    is_ignored_by_files env path = ignoreLastMatch env path := by
  unfold is_ignored_by_files ignoreLastMatch
  rw [dirs_fold_entries env path (parentChain path) false]
  exact foldl_overwrite_lastMatch (entryMatches path)
    (fun entry => !entry.2.is_include) (entriesOfDirs env (parentChain path)) false

/-- C1 counterexample: with the single static pattern `a/**` and an ignore
file in directory `a` whose only line is the include pattern `!**`, the
claim's single combined last-match-wins rule would include `a/b/x` (the
deeper include entry overrides the static exclusion), but `should_analyze`
excludes it — a static exclusion returns before ignore files are
consulted. -/
theorem c1_counterexample_static_exclusion_final :
    (PathFilter.new [cs "a/**"]).map
        (fun ps =>
          (should_analyze ps true [([cs "a"], [cs "!**"])] [cs "a", cs "b", cs "x"],
           claimCombinedDecision ps [([cs "a"], [cs "!**"])] [cs "a", cs "b", cs "x"])) =
      some (false, true) := by decide

/-- C1 amended: the final decision is the conjunction of two separate
last-match-wins folds — the static patterns (default include) and the
discovered ignore-file entries (default not-ignored, each entry matched
against the path relative to its directory, the walk visiting deeper
directories first so that entries of shallower directories are processed
later and win).  An include entry in an ignore file can flip earlier
ignore-file exclusions, but never a static exclusion. -/
theorem c1_static_then_ignore_files_combination
    (patterns : List FilterPattern) (env : IgnoreEnv) (path : RPath) :
    should_analyze patterns true env path =
      (lastMatchWins patterns path && !ignoreLastMatch env path) := by
  unfold should_analyze
  rw [is_ignored_eq_lastMatch]
  have hs : staticDecision patterns path = lastMatchWins patterns path :=
    foldl_overwrite_lastMatch
      (fun pat => pattern_matches_path pat path false) (fun pat => pat.is_include) patterns true
  rw [hs]
  cases lastMatchWins patterns path <;> simp

/-- Inserting under a key makes lookup under that key return the new
value. -/
theorem alookup_insertReplace_self {α β : Type} [DecidableEq α]
    (l : List (α × β)) (k : α) (v : β) :
    alookup (insertReplace l k v) k = some v := by
  induction l with
  | nil => simp [insertReplace, alookup]
  | cons hd tl ih =>
    by_cases h : hd.1 = k
    · simp [insertReplace, h, alookup]
    · simp [insertReplace, h, alookup, ih]

/-- Inserting under a key leaves every other key's lookup unchanged. -/
theorem alookup_insertReplace_other {α β : Type} [DecidableEq α]
    (l : List (α × β)) (k k' : α) (v : β) (h : k' ≠ k) :
    alookup (insertReplace l k v) k' = alookup l k' := by
  induction l with
  | nil => simp [insertReplace, alookup, Ne.symm h]
  | cons hd tl ih =>
    by_cases hh : hd.1 = k
    · simp only [insertReplace, if_pos hh, alookup]
      rw [if_neg (Ne.symm h), if_neg]
      rw [hh]
      exact Ne.symm h
    · simp only [insertReplace, if_neg hh, alookup]
      by_cases hk : hd.1 = k'
      · rw [if_pos hk, if_pos hk]
      · rw [if_neg hk, if_neg hk, ih]

/-- C3: `needs_analysis` returns `false` (a hit) exactly when a stored
entry matches the file's current size, modification time, the passed
fingerprint and the recomputed digest; every call bumps exactly one of the
two counters and marks the store dirty; when the entry's size, mtime or
fingerprint already differ the digest argument is never consulted
(cheapest check first); after `update_entry`, an unchanged file with an
unchanged fingerprint is a hit and a content edit preserving size and
mtime flips the decision back to `true`. -/
theorem c3_needs_analysis_validity (cache : FileCache) (file_path : RPath)
    (currentSize currentModified : Nat) (currentHash fp : Str) :
    ((needs_analysis cache file_path currentSize currentModified currentHash fp).1 = false ↔
      (∃ entry, alookup cache.data.files file_path = some entry ∧
        entry.size = currentSize ∧ entry.modified_at = currentModified ∧
        entry.config_fingerprint = fp ∧ entry.content_hash = currentHash)) ∧
    ((needs_analysis cache file_path currentSize currentModified currentHash fp).2.data.metadata.hits +
        (needs_analysis cache file_path currentSize currentModified currentHash fp).2.data.metadata.misses =
      cache.data.metadata.hits + cache.data.metadata.misses + 1) ∧
    ((needs_analysis cache file_path currentSize currentModified currentHash fp).1 = false →
      (needs_analysis cache file_path currentSize currentModified currentHash fp).2.data.metadata.hits =
          cache.data.metadata.hits + 1 ∧
        (needs_analysis cache file_path currentSize currentModified currentHash fp).2.data.metadata.misses =
          cache.data.metadata.misses) ∧
    ((needs_analysis cache file_path currentSize currentModified currentHash fp).1 = true →
      (needs_analysis cache file_path currentSize currentModified currentHash fp).2.data.metadata.misses =
          cache.data.metadata.misses + 1 ∧
        (needs_analysis cache file_path currentSize currentModified currentHash fp).2.data.metadata.hits =
          cache.data.metadata.hits) ∧
    ((needs_analysis cache file_path currentSize currentModified currentHash fp).2.dirty = true) ∧
    (∀ entry, alookup cache.data.files file_path = some entry →
      (entry.size ≠ currentSize ∨ entry.modified_at ≠ currentModified ∨
        entry.config_fingerprint ≠ fp) →
      ∀ otherHash,
        needs_analysis cache file_path currentSize currentModified otherHash fp =
          needs_analysis cache file_path currentSize currentModified currentHash fp) ∧
    (∀ violationCount now,
      (needs_analysis
          (update_entry cache file_path violationCount fp currentSize currentModified
            currentHash now)
          file_path currentSize currentModified currentHash fp).1 = false) ∧
    (∀ violationCount now otherHash, otherHash ≠ currentHash →
      (needs_analysis
          (update_entry cache file_path violationCount fp currentSize currentModified
            currentHash now)
          file_path currentSize currentModified otherHash fp).1 = true) := by
  refine ⟨?_, ?_, ?_, ?_, ?_, ?_, ?_, ?_⟩
  · cases h : alookup cache.data.files file_path with
    | none => simp [needs_analysis, h]
    | some entry =>
      simp only [needs_analysis, h]
      split_ifs with h1 h2 h3 <;> simp <;> tauto
  · cases h : alookup cache.data.files file_path with
    | none => simp [needs_analysis, h]; omega
    | some entry =>
      simp only [needs_analysis, h]
      split_ifs <;> simp <;> omega
  · cases h : alookup cache.data.files file_path with
    | none => simp [needs_analysis, h]
    | some entry =>
      simp only [needs_analysis, h]
      split_ifs <;> simp
  · cases h : alookup cache.data.files file_path with
    | none => simp [needs_analysis, h]
    | some entry =>
      simp only [needs_analysis, h]
      split_ifs <;> simp
  · cases h : alookup cache.data.files file_path with
    | none => simp [needs_analysis, h]
    | some entry =>
      simp only [needs_analysis, h]
      split_ifs <;> rfl
  · intro entry' he' hdiff otherHash
    simp only [needs_analysis, he']
    rcases hdiff with hd | hd | hd
    · rw [if_pos (Or.inl hd), if_pos (Or.inl hd)]
    · rw [if_pos (Or.inr hd), if_pos (Or.inr hd)]
    · by_cases h1 : entry'.size ≠ currentSize ∨ entry'.modified_at ≠ currentModified
      · rw [if_pos h1, if_pos h1]
      · rw [if_neg h1, if_neg h1, if_pos hd, if_pos hd]
  · intro violationCount now
    simp [needs_analysis, update_entry, alookup_insertReplace_self]
  · intro violationCount now otherHash hne
    simp [needs_analysis, update_entry, alookup_insertReplace_self, Ne.symm hne]

/-- C3 witness at a concrete store: after `update_entry`, a same-size,
same-mtime content edit (different digest) makes `needs_analysis` return
`true`. -/
theorem c3_needs_analysis_validity_witness :
    (needs_analysis
        (update_entry (loadFresh 0) [cs "f.rs"] 0 (cs "cfg") 1 2 (cs "h1") 3)
        [cs "f.rs"] 1 2 (cs "h2") (cs "cfg")).1 = true :=
  (c3_needs_analysis_validity (loadFresh 0) [cs "f.rs"] 1 2 (cs "h1")
    (cs "cfg")).2.2.2.2.2.2.2 0 3 (cs "h2") (by decide)

/-- A fold over `Except` with `Unit` state succeeds exactly when the check
succeeds on every element. -/
theorem unit_foldlM_ok {β : Type} (f : β → Except GuardianErr Unit) (l : List β) :
    (l.foldlM (fun _ b => f b) () = .ok ()) ↔ ∀ b ∈ l, f b = .ok () := by
  induction l with
  | nil => exact ⟨fun _ b hb => absurd hb (List.not_mem_nil b), fun _ => rfl⟩
  | cons x xs ih =>
    rw [List.foldlM_cons]
    cases hfx : f x with
    | error e =>
      constructor
      · intro hcontr
        exact Except.noConfusion (show Except.error (α := Unit) e = Except.ok () from hcontr)
      · intro hall
        have hx := hall x (List.mem_cons_self x xs)
        rw [hfx] at hx
        exact Except.noConfusion hx
    | ok u =>
      cases u
      constructor
      · intro hok b hb
        have hok' : xs.foldlM (fun _ b => f b) () = Except.ok () := hok
        rcases List.mem_cons.mp hb with heq | hb'
        · subst heq; exact hfx
        · exact ih.mp hok' b hb'
      · intro hall
        have hok' : xs.foldlM (fun _ b => f b) () = Except.ok () :=
          ih.mpr fun b hb => hall b (List.mem_cons_of_mem x hb)
        exact hok'

/-- C4 counterexample: building the engine from a configuration whose one
category holds two rules with the same id succeeds — the registry ends up
with a single entry for that id, holding the later rule's matcher. -/
theorem c4_counterexample_duplicate_ids_build_succeeds :
    (Analyzer.new cfgDup).isOk = true ∧
    (Analyzer.new cfgDup).toOption.map
        (fun a => a.pattern_engine.ast_patterns.map Prod.fst) = some [cs "dup"] ∧
    (Analyzer.new cfgDup).toOption.map
        (fun a => a.pattern_engine.ast_patterns.map (fun p => p.2.message_template)) =
      some [cs "second"] := by decide

/-- C4 amended: registry construction does not fail on duplicate rule ids —
a successful `add_rule` stores the compiled matcher under the rule's id via
a replacing insert, so a later same-id rule silently replaces the earlier
one (`alookup` then returns the new matcher, and every other id is
untouched); duplicate ids within a category are instead rejected earlier,
by `GuardianConfig::validate` during configuration loading. -/
theorem c4_duplicate_ids_replace_and_validate_rejects :
    (∀ (engine engine' : PatternEngine) (rule : PatternRule) (sev : Severity),
        rule.rule_type = .ast →
        add_rule engine rule sev = .ok engine' →
        ∃ compiled,
          engine'.ast_patterns = insertReplace engine.ast_patterns rule.id compiled ∧
          compiled.rule_id = rule.id ∧
          compiled.message_template = rule.message ∧
          engine'.regex_patterns = engine.regex_patterns ∧
          alookup engine'.ast_patterns rule.id = some compiled ∧
          (∀ otherId, otherId ≠ rule.id →
            alookup engine'.ast_patterns otherId = alookup engine.ast_patterns otherId)) ∧
    GuardianConfig.validate cfgDup = .error .configErr ∧
    (∀ (config : GuardianConfig) (catName : Str) (category : PatternCategory)
        (rule : PatternRule),
        (catName, category) ∈ config.patterns →
        rule ∈ category.rules →
        (category.rules.filter (fun r => r.id = rule.id)).length > 1 →
        (GuardianConfig.validate config).isOk = false) := by
  refine ⟨?_, by decide, ?_⟩
  · intro engine engine' rule sev htype hadd
    simp only [add_rule, htype] at hadd
    cases hp : parse_ast_pattern rule.pattern with
    | error e => rw [hp] at hadd; simp [Except.map] at hadd
    | ok patternType =>
      rw [hp] at hadd
      simp only [Except.map, Except.ok.injEq] at hadd
      subst hadd
      refine ⟨_, rfl, rfl, rfl, rfl, alookup_insertReplace_self _ _ _, ?_⟩
      intro otherId hne
      exact alookup_insertReplace_other _ _ _ _ hne
  · intro config catName category rule hcat hrule hdup
    unfold GuardianConfig.validate
    by_cases hv : config.version ≠ cs "1.0"
    · rw [if_pos hv]; rfl
    · rw [if_neg hv]
      have hne : config.patterns.foldlM
          (fun _ namedCategory => validateCategory namedCategory) () ≠ Except.ok () := by
        intro hok
        have houter := (unit_foldlM_ok validateCategory config.patterns).mp hok
        have hinner := houter (catName, category) hcat
        have hrules :=
          (unit_foldlM_ok (validateRule category) category.rules).mp hinner rule hrule
        rw [validateRule, if_pos hdup] at hrules
        exact Except.noConfusion hrules
      cases h2 : config.patterns.foldlM
          (fun _ namedCategory => validateCategory namedCategory) () with
      | error e => rfl
      | ok u => cases u; exact absurd h2 hne

/-- C4 witness: the general validate-rejects-duplicates statement applied
to the concrete duplicate-id configuration. -/
theorem c4_duplicate_ids_witness :
    (GuardianConfig.validate cfgDup).isOk = false :=
  c4_duplicate_ids_replace_and_validate_rejects.2.2 cfgDup (cs "cat") catDup ruleDupA
    (by decide) (by decide) (by decide)

/-- Any single non-`clear` cache operation leaves both counters at least
as large as before. -/
theorem step_counters_mono (cache : FileCache) (op : CacheOp) (h : op.isClear = false) :
    cache.data.metadata.hits ≤ (stepCache cache op).data.metadata.hits ∧
    cache.data.metadata.misses ≤ (stepCache cache op).data.metadata.misses := by
  cases op with
  | needsAnalysisOp path size mtime hash fp =>
    cases halook : alookup cache.data.files path with
    | none => simp [stepCache, needs_analysis, halook]
    | some entry =>
      simp only [stepCache, needs_analysis, halook]
      split_ifs <;> simp
  | updateEntryOp path violationCount fp size mtime hash now =>
    simp [stepCache, update_entry]
  | cleanupOp existing => simp [stepCache, cleanup]
  | saveOp now =>
    simp only [stepCache, cacheSave]
    split_ifs <;> simp
  | statisticsOp => simp [stepCache]
  | clearOp now => simp [CacheOp.isClear] at h

/-- Both counters are monotone along any `clear`-free operation
sequence. -/
theorem runCache_counters_mono :
    ∀ (ops : List CacheOp) (cache : FileCache),
      ops.all (fun op => !op.isClear) = true →
      cache.data.metadata.hits ≤ (runCache cache ops).data.metadata.hits ∧
      cache.data.metadata.misses ≤ (runCache cache ops).data.metadata.misses := by
  intro ops
  induction ops with
  | nil => exact fun cache _ => ⟨le_refl _, le_refl _⟩
  | cons op rest ih =>
    intro cache h
    simp only [List.all_cons, Bool.and_eq_true] at h
    have h1 := step_counters_mono cache op (by simpa using h.1)
    have h2 := ih (stepCache cache op) h.2
    exact ⟨h1.1.trans h2.1, h1.2.trans h2.2⟩

/-- C5 counterexample: one miss then `clear` — the quantity
`hits + misses` drops from 1 to 0 within the same run, so it is not
non-decreasing across every operation sequence that includes `clear`. -/
theorem c5_counterexample_clear_resets_counters :
    (runCache (loadFresh 0)
          [.needsAnalysisOp [cs "f.rs"] 1 2 (cs "h") (cs "c")]).data.metadata.hits +
        (runCache (loadFresh 0)
          [.needsAnalysisOp [cs "f.rs"] 1 2 (cs "h") (cs "c")]).data.metadata.misses = 1 ∧
    (runCache (loadFresh 0)
          [.needsAnalysisOp [cs "f.rs"] 1 2 (cs "h") (cs "c"),
           .clearOp 5]).data.metadata.hits +
        (runCache (loadFresh 0)
          [.needsAnalysisOp [cs "f.rs"] 1 2 (cs "h") (cs "c"),
           .clearOp 5]).data.metadata.misses = 0 := by decide

/-- C5 amended: across every `clear`-free sequence of cache operations
(`needs_analysis`, `update_entry`, `cleanup`, `save`, `statistics`) each
counter — and hence `hits + misses` — is non-decreasing; `clear` instead
resets both counters to zero; and the reported hit rate
`hits / (hits + misses)` (0 when the sum is 0) always lies in `[0, 1]`. -/
theorem c5_counters_monotone_without_clear (cache : FileCache) (ops : List CacheOp)
    (h : ops.all (fun op => !op.isClear) = true) :
    (cache.data.metadata.hits ≤ (runCache cache ops).data.metadata.hits ∧
     cache.data.metadata.misses ≤ (runCache cache ops).data.metadata.misses ∧
     cache.data.metadata.hits + cache.data.metadata.misses ≤
       (runCache cache ops).data.metadata.hits +
         (runCache cache ops).data.metadata.misses) ∧
    (∀ c : FileCache, 0 ≤ (statistics c).hit_rate ∧ (statistics c).hit_rate ≤ 1) ∧
    (∀ (c : FileCache) (now : Nat),
      (cacheClear c now).data.metadata.hits = 0 ∧
        (cacheClear c now).data.metadata.misses = 0) := by
  refine ⟨?_, ?_, fun c now => ⟨rfl, rfl⟩⟩
  · have hm := runCache_counters_mono ops cache h
    exact ⟨hm.1, hm.2, Nat.add_le_add hm.1 hm.2⟩
  · intro c
    unfold statistics
    dsimp only
    split_ifs with hpos
    · have hq : (0 : ℚ) < (c.data.metadata.hits : ℚ) + (c.data.metadata.misses : ℚ) := by
        have hval : (0 : ℚ) < ((c.data.metadata.hits + c.data.metadata.misses : ℕ) : ℚ) := by
          exact_mod_cast hpos
        push_cast at hval
        exact hval
      constructor
      · positivity
      · rw [div_le_one hq]
        exact le_add_of_nonneg_right (by positivity)
    · simp

/-- C5 witness: the run `[miss, save]` keeps `hits + misses` monotone. -/
theorem c5_counters_monotone_witness :
    (loadFresh 0).data.metadata.hits +
        (loadFresh 0).data.metadata.misses ≤
      (runCache (loadFresh 0)
          [.needsAnalysisOp [cs "f.rs"] 1 2 (cs "h") (cs "c"),
           .saveOp 4]).data.metadata.hits +
        (runCache (loadFresh 0)
          [.needsAnalysisOp [cs "f.rs"] 1 2 (cs "h") (cs "c"),
           .saveOp 4]).data.metadata.misses :=
  ((c5_counters_monotone_without_clear (loadFresh 0)
      [.needsAnalysisOp [cs "f.rs"] 1 2 (cs "h") (cs "c"), .saveOp 4]
      (by decide)).1).2.2

/-- C6 counterexample: a rule whose only exclusion condition is an
attribute marker, on a non-test file with the attribute confirmed present —
the claim's policy drops the match, but neither `should_exclude_match` nor
`should_exclude_ast_match` does: the attribute condition is never
consulted. -/
theorem c6_counterexample_attribute_condition_ignored :
    claimShouldDrop condsAttrOnly [cs "src", cs "lib.rs"] true = true ∧
    should_exclude_match (some condsAttrOnly) [cs "src", cs "lib.rs"] (cs "x") [] 0 = false ∧
    should_exclude_ast_match (some condsAttrOnly) [cs "src", cs "lib.rs"] 1 = false := by
  decide

/-- C6 amended: a raw candidate match is dropped if and only if the rule's
test-file flag is set and the path is a test file, or a configured
exclusion glob matches the path; the attribute-marker condition is ignored
(changing it never changes the outcome), and without conditions nothing is
dropped. -/
theorem c6_exclusion_drops_iff_tests_or_glob :
    (∀ (conds : ExcludeConditions) (path : RPath) (matchedText content : Str) (offset : Nat),
        should_exclude_match (some conds) path matchedText content offset =
          ((conds.in_tests && is_test_file path) ||
            (match conds.file_patterns with
             | some pats => pats.any (excludeGlobMatches · path)
             | none => false))) ∧
    (∀ (conds : ExcludeConditions) (path : RPath) (line : Nat),
        should_exclude_ast_match (some conds) path line =
          ((conds.in_tests && is_test_file path) ||
            (match conds.file_patterns with
             | some pats => pats.any (excludeGlobMatches · path)
             | none => false))) ∧
    (∀ (path : RPath) (matchedText content : Str) (offset : Nat),
        should_exclude_match none path matchedText content offset = false) ∧
    (∀ (conds : ExcludeConditions) (a a' : Option Str) (path : RPath)
        (matchedText content : Str) (offset : Nat),
        should_exclude_match (some { conds with attr := a }) path matchedText content offset =
          should_exclude_match (some { conds with attr := a' }) path matchedText content
            offset) := by
  refine ⟨?_, ?_, fun _ _ _ _ => rfl, fun _ _ _ _ _ _ _ => rfl⟩
  · intro conds path matchedText content offset
    by_cases h : conds.in_tests && is_test_file path <;>
      simp [should_exclude_match, h]
  · intro conds path line
    by_cases h : conds.in_tests && is_test_file path <;>
      simp [should_exclude_ast_match, h]

/-- C8: when the content fails to parse, every structural pattern yields
no matches and no error, and `analyze_file` still succeeds with exactly
the text-rule matches. -/
theorem c8_parse_failure_narrows_to_text_rules (engine : PatternEngine) (file_path : RPath)
    (content : FileContent) (h : content.parsed = none) :
    (∀ pattern : AstPattern, apply_ast_pattern pattern file_path content = []) ∧
    analyze_file engine file_path content =
      .ok (engine.regex_patterns.foldl
        (fun acc idPat => acc ++ apply_regex_pattern idPat.2 file_path content.text) []) := by
  have hast : ∀ pattern : AstPattern, apply_ast_pattern pattern file_path content = [] := by
    intro pattern
    unfold apply_ast_pattern
    rw [h]
  refine ⟨hast, ?_⟩
  have hfold : ∀ (l : List (Str × AstPattern)) (acc : List PatternMatch),
      l.foldl (fun acc idPat => acc ++ apply_ast_pattern idPat.2 file_path content) acc = acc := by
    intro l
    induction l with
    | nil => intro acc; rfl
    | cons p ps ih =>
      intro acc
      rw [List.foldl_cons, hast p.2, List.append_nil]
      exact ih acc
  simp only [analyze_file]
  by_cases hrs : extOf file_path = some (cs "rs")
  · rw [if_pos hrs, hfold]
  · rw [if_neg hrs]

/-- C8 witness: an unparsable `.rs` file under an engine holding only a
structural rule produces no matches and no error. -/
theorem c8_parse_failure_witness :
    analyze_file engineAstOnly [cs "bad.rs"] contentUnparsed = .ok [] ∧
    apply_ast_pattern astPatternEOR [cs "bad.rs"] contentUnparsed = [] :=
  ⟨(c8_parse_failure_narrows_to_text_rules engineAstOnly [cs "bad.rs"] contentUnparsed rfl).2,
   (c8_parse_failure_narrows_to_text_rules engineAstOnly [cs "bad.rs"] contentUnparsed rfl).1
     astPatternEOR⟩

/-- The per-function body of `find_empty_ok_returns` in terms of
`emptyOkFlagged`. -/
theorem emptyOk_body_eq (f : ItemFn) :
    (match f.output with
     | some returnType =>
       if is_result_type returnType && find_ok_unit_return f.stmts then
         some ((1 : Nat), (1 : Nat), ([] : Str))
       else none
     | none => none) =
    (if emptyOkFlagged f then some (1, 1, []) else none) := by
  unfold emptyOkFlagged
  cases ho : f.output with
  | none => rfl
  | some ty => rfl

/-- The trivial-success-body finder flags exactly the functions accepted
by `emptyOkFlagged`. -/
theorem find_empty_ok_eq_filter (fns : List ItemFn) (macs : List (List Str)) :
    find_empty_ok_returns { fns := fns, macs := macs } =
      (fns.filter emptyOkFlagged).map (fun _ => (1, 1, ([] : Str))) := by
  induction fns with
  | nil => rfl
  | cons f rest ih =>
    simp only [find_empty_ok_returns] at ih ⊢
    rw [List.filterMap_cons, List.filter_cons, emptyOk_body_eq f]
    by_cases hflag : emptyOkFlagged f
    · rw [if_pos hflag, if_pos hflag, List.map_cons, ih]
    · rw [if_neg hflag, if_neg hflag, ih]

/-- C9: the trivial-success-body rule flags exactly the functions whose
declared return type is a `Result` path and whose body is one `Ok(())`
expression statement; a body with any preceding statement is never
flagged; end to end, the rule applied to a file holding both shapes emits
exactly one match, for the single-statement function. -/
theorem c9_trivial_success_body_exact :
    (∀ (fns : List ItemFn) (macs : List (List Str)),
        find_empty_ok_returns { fns := fns, macs := macs } =
          (fns.filter emptyOkFlagged).map (fun _ => (1, 1, ([] : Str)))) ∧
    (∀ f : ItemFn,
        emptyOkFlagged f = true ↔
          ((∃ ty, f.output = some ty ∧ is_result_type ty = true) ∧
            (∃ e semi, f.stmts = [.exprStmt e semi] ∧ is_ok_unit_expr e = true))) ∧
    (∀ (f : ItemFn) (s : SynStmt) (rest : List SynStmt),
        f.stmts = s :: rest → rest ≠ [] → emptyOkFlagged f = false) ∧
    ((apply_ast_pattern astPatternEOR [cs "m.rs"]
        { text := [], parsed := some treeOkUnit }).length = 1 ∧
      find_empty_ok_returns { fns := [fnOkUnit], macs := [] } = [(1, 1, [])] ∧
      find_empty_ok_returns { fns := [fnWithPrecedingStmt], macs := [] } = []) := by
  refine ⟨find_empty_ok_eq_filter, ?_, ?_, by decide⟩
  · intro f
    cases ho : f.output with
    | none => simp [emptyOkFlagged, ho]
    | some ty =>
      cases hs : f.stmts with
      | nil => simp [emptyOkFlagged, find_ok_unit_return, ho, hs]
      | cons s rest =>
        cases s with
        | otherStmt =>
          cases rest <;> simp [emptyOkFlagged, find_ok_unit_return, ho, hs]
        | exprStmt e semi =>
          cases rest with
          | nil => simp [emptyOkFlagged, find_ok_unit_return, ho, hs, And.comm]
          | cons s2 rest2 => simp [emptyOkFlagged, find_ok_unit_return, ho, hs]
  · intro f s rest hst hrest
    cases rest with
    | nil => exact absurd rfl hrest
    | cons s2 rest2 =>
      cases s <;> simp [emptyOkFlagged, find_ok_unit_return, hst]

/-- C9 witness: the function with a preceding statement is not flagged. -/
theorem c9_trivial_success_body_witness :
    emptyOkFlagged fnWithPrecedingStmt = false :=
  c9_trivial_success_body_exact.2.2.1 fnWithPrecedingStmt .otherStmt
    [.exprStmt (.call (.pathE [cs "Ok"]) [.tuple []]) false] rfl (List.cons_ne_nil _ _)

/-- C10: for a file whose extension is not `rs`, `analyze_file` applies
only the compiled text rules — no structural pattern is ever consulted,
regardless of whether the content parses. -/
theorem c10_structural_rules_gated_on_extension (engine : PatternEngine) (file_path : RPath)
    (content : FileContent) (h : extOf file_path ≠ some (cs "rs")) :
    analyze_file engine file_path content =
      .ok (engine.regex_patterns.foldl
        (fun acc idPat => acc ++ apply_regex_pattern idPat.2 file_path content.text) []) := by
  simp only [analyze_file]
  rw [if_neg h]

/-- C10 witness: a `.txt` file whose content parses (and whose tree the
structural rule would flag) still produces no structural matches. -/
theorem c10_structural_rules_gated_witness :
    contentParsed.parsed.isSome = true ∧
    find_empty_ok_returns treeOkUnit = [(1, 1, [])] ∧
    analyze_file engineAstOnly [cs "foo.txt"] contentParsed = .ok [] :=
  ⟨by decide, by decide,
   c10_structural_rules_gated_on_extension engineAstOnly [cs "foo.txt"] contentParsed
     (by decide)⟩

/-- Closed form of the `get_match_location` scan loop: over the `k = off - i`
characters still to be consumed, the line grows by the number of line
breaks among them; the column and line start either advance within the
current line (no break seen) or restart after the last break seen. -/
theorem locScan_closed :
    ∀ (content : Str) (i line col ls off : Nat),
      locScan content i line col ls off =
        (line + ((content.take (off - i)).filter (· = '\n')).length,
         (if ((content.take (off - i)).filter (· = '\n')).length = 0 then
            col + (content.take (off - i)).length
          else 1 + ((content.take (off - i)).reverse.takeWhile (· ≠ '\n')).length),
         (if ((content.take (off - i)).filter (· = '\n')).length = 0 then ls
          else i + ((content.take (off - i)).length -
            ((content.take (off - i)).reverse.takeWhile (· ≠ '\n')).length))) := by
  intro content
  induction content with
  | nil => intro i line col ls off; simp [locScan]
  | cons ch rest ih =>
    intro i line col ls off
    by_cases hio : i ≥ off
    · have h0 : off - i = 0 := by omega
      simp [locScan, hio, h0]
    · have hk : off - i = (off - (i + 1)) + 1 := by omega
      rw [hk, List.take_succ_cons]
      have htwle :
          (List.takeWhile (fun x => decide (x ≠ '\n'))
            (List.take (off - (i+1)) rest).reverse).length ≤
            (List.take (off - (i+1)) rest).length :=
        le_of_le_of_eq (List.takeWhile_prefix _).length_le (by simp)
      by_cases hnl : ch = '\n'
      · subst hnl
        have hstep : locScan ('\n' :: rest) i line col ls off =
            locScan rest (i + 1) (line + 1) 1 (i + 1) off := by
          simp [locScan, hio]
        rw [hstep, ih (i + 1) (line + 1) 1 (i + 1) off]
        have hfc : List.filter (fun x => decide (x = '\n')) ('\n' :: List.take (off - (i+1)) rest) =
            '\n' :: List.filter (fun x => decide (x = '\n')) (List.take (off - (i+1)) rest) := by
          simp
        simp only [Prod.mk.injEq]
        refine ⟨?_, ?_, ?_⟩
        · rw [hfc]; simp; omega
        · by_cases hz : (List.filter (fun x => decide (x = '\n'))
              (List.take (off - (i+1)) rest)).length = 0
          · have hnonl : ∀ a ∈ (List.take (off - (i+1)) rest).reverse,
                (decide (a ≠ '\n')) = true := by
              intro a ha
              simp only [ne_eq, decide_eq_true_eq]
              intro hcontr
              subst hcontr
              have hmem : '\n' ∈ List.take (off - (i+1)) rest := List.mem_reverse.mp ha
              have hmf : '\n' ∈ (List.take (off - (i+1)) rest).filter
                  (fun x => decide (x = '\n')) := List.mem_filter.mpr ⟨hmem, by simp⟩
              rw [List.length_eq_zero.mp hz] at hmf
              exact absurd hmf (List.not_mem_nil _)
            have htw : List.takeWhile (fun x => decide (x ≠ '\n'))
                (('\n' :: List.take (off - (i+1)) rest).reverse) =
                (List.take (off - (i+1)) rest).reverse := by
              rw [List.reverse_cons, List.takeWhile_append_of_pos hnonl]
              simp
            rw [if_pos hz, hfc, if_neg (by simp), htw]
            try simp
          · have hlen : ¬ ((List.takeWhile (fun x => decide (x ≠ '\n'))
                (List.take (off - (i+1)) rest).reverse).length =
                (List.take (off - (i+1)) rest).reverse.length) := by
              intro heq
              have hself := (List.takeWhile_prefix
                (fun x => decide (x ≠ '\n'))).eq_of_length heq
              have hall := List.takeWhile_eq_self_iff.mp hself
              apply hz
              rw [List.length_eq_zero, List.filter_eq_nil_iff]
              intro a ha
              have hne2 := hall a (List.mem_reverse.mpr ha)
              simpa using hne2
            have htw : List.takeWhile (fun x => decide (x ≠ '\n'))
                (('\n' :: List.take (off - (i+1)) rest).reverse) =
                List.takeWhile (fun x => decide (x ≠ '\n'))
                  (List.take (off - (i+1)) rest).reverse := by
              rw [List.reverse_cons, List.takeWhile_append, if_neg hlen]
            rw [if_neg hz, hfc, if_neg (by simp), htw]
        · by_cases hz : (List.filter (fun x => decide (x = '\n'))
              (List.take (off - (i+1)) rest)).length = 0
          · have htw3 : List.takeWhile (fun x => decide (x ≠ '\n'))
                (('\n' :: List.take (off - (i+1)) rest).reverse) =
                (List.take (off - (i+1)) rest).reverse := by
              have hnonl : ∀ a ∈ (List.take (off - (i+1)) rest).reverse,
                  (decide (a ≠ '\n')) = true := by
                intro a ha
                simp only [ne_eq, decide_eq_true_eq]
                intro hcontr
                subst hcontr
                have hmem : '\n' ∈ List.take (off - (i+1)) rest := List.mem_reverse.mp ha
                have hmf : '\n' ∈ (List.take (off - (i+1)) rest).filter
                    (fun x => decide (x = '\n')) := List.mem_filter.mpr ⟨hmem, by simp⟩
                rw [List.length_eq_zero.mp hz] at hmf
                exact absurd hmf (List.not_mem_nil _)
              rw [List.reverse_cons, List.takeWhile_append_of_pos hnonl]
              simp
            rw [if_pos hz, hfc, if_neg (by simp), htw3]
            try simp
            try omega
          · have hlen : ¬ ((List.takeWhile (fun x => decide (x ≠ '\n'))
                (List.take (off - (i+1)) rest).reverse).length =
                (List.take (off - (i+1)) rest).reverse.length) := by
              intro heq
              have hself := (List.takeWhile_prefix
                (fun x => decide (x ≠ '\n'))).eq_of_length heq
              have hall := List.takeWhile_eq_self_iff.mp hself
              apply hz
              rw [List.length_eq_zero, List.filter_eq_nil_iff]
              intro a ha
              have hne2 := hall a (List.mem_reverse.mpr ha)
              simpa using hne2
            have htw3 : List.takeWhile (fun x => decide (x ≠ '\n'))
                (('\n' :: List.take (off - (i+1)) rest).reverse) =
                List.takeWhile (fun x => decide (x ≠ '\n'))
                  (List.take (off - (i+1)) rest).reverse := by
              rw [List.reverse_cons, List.takeWhile_append, if_neg hlen]
            rw [if_neg hz, hfc, if_neg (by simp), htw3]
            simp only [List.length_cons]
            omega
      · have hstep : locScan (ch :: rest) i line col ls off =
            locScan rest (i + 1) line (col + 1) ls off := by
          simp [locScan, hio, hnl]
        rw [hstep, ih (i + 1) line (col + 1) ls off]
        have hfil : List.filter (fun x => decide (x = '\n')) (ch :: List.take (off - (i+1)) rest) =
            List.filter (fun x => decide (x = '\n')) (List.take (off - (i+1)) rest) := by
          rw [List.filter_cons, if_neg (by simpa using hnl)]
        simp only [Prod.mk.injEq]
        refine ⟨?_, ?_, ?_⟩
        · rw [hfil]
        · by_cases hz : (List.filter (fun x => decide (x = '\n'))
              (List.take (off - (i+1)) rest)).length = 0
          · rw [if_pos hz, hfil, if_pos hz]
            simp
            omega
          · have hlen : ¬ ((List.takeWhile (fun x => decide (x ≠ '\n'))
                (List.take (off - (i+1)) rest).reverse).length =
                (List.take (off - (i+1)) rest).reverse.length) := by
              intro heq
              have hself := (List.takeWhile_prefix
                (fun x => decide (x ≠ '\n'))).eq_of_length heq
              have hall := List.takeWhile_eq_self_iff.mp hself
              apply hz
              rw [List.length_eq_zero, List.filter_eq_nil_iff]
              intro a ha
              have hne2 := hall a (List.mem_reverse.mpr ha)
              simpa using hne2
            have htw4 : List.takeWhile (fun x => decide (x ≠ '\n'))
                ((ch :: List.take (off - (i+1)) rest).reverse) =
                List.takeWhile (fun x => decide (x ≠ '\n'))
                  (List.take (off - (i+1)) rest).reverse := by
              rw [List.reverse_cons, List.takeWhile_append, if_neg hlen]
            rw [if_neg hz, hfil, if_neg hz, htw4]
        · by_cases hz : (List.filter (fun x => decide (x = '\n'))
              (List.take (off - (i+1)) rest)).length = 0
          · rw [if_pos hz, hfil, if_pos hz]
          · have hlen : ¬ ((List.takeWhile (fun x => decide (x ≠ '\n'))
                (List.take (off - (i+1)) rest).reverse).length =
                (List.take (off - (i+1)) rest).reverse.length) := by
              intro heq
              have hself := (List.takeWhile_prefix
                (fun x => decide (x ≠ '\n'))).eq_of_length heq
              have hall := List.takeWhile_eq_self_iff.mp hself
              apply hz
              rw [List.length_eq_zero, List.filter_eq_nil_iff]
              intro a ha
              have hne2 := hall a (List.mem_reverse.mpr ha)
              simpa using hne2
            have htw4 : List.takeWhile (fun x => decide (x ≠ '\n'))
                ((ch :: List.take (off - (i+1)) rest).reverse) =
                List.takeWhile (fun x => decide (x ≠ '\n'))
                  (List.take (off - (i+1)) rest).reverse := by
              rw [List.reverse_cons, List.takeWhile_append, if_neg hlen]
            rw [if_neg hz, hfil, if_neg hz, htw4]
            simp only [List.length_cons]
            omega

/-- `get_match_location` computes exactly the spec's description: the
1-indexed line is one plus the number of line breaks before the offset, the
1-indexed column is one plus the number of characters since the last line
break, and the context is the trimmed enclosing line. -/
theorem get_match_location_spec (content : Str) (offset : Nat) :
    get_match_location content offset =
      (specLine content offset, specCol content offset, specContext content offset) := by
  simp only [get_match_location, locScan_closed, Nat.sub_zero, specLine, specCol,
    specContext, specLineStart, specTail]
  by_cases hz : ((content.take offset).filter (fun x => decide (x = '\n'))).length = 0
  · have hall : List.takeWhile (fun x => decide (x ≠ '\n')) (content.take offset).reverse =
        (content.take offset).reverse := by
      rw [List.takeWhile_eq_self_iff]
      intro a ha
      have hmem := List.mem_reverse.mp ha
      simp only [ne_eq, decide_eq_true_eq]
      intro hcontr
      subst hcontr
      have hmf : '\n' ∈ (content.take offset).filter (fun x => decide (x = '\n')) :=
        List.mem_filter.mpr ⟨hmem, by simp⟩
      rw [List.length_eq_zero.mp hz] at hmf
      exact absurd hmf (List.not_mem_nil _)
    rw [if_pos hz, if_pos hz, hall]
    simp
  · rw [if_neg hz, if_neg hz]
    simp [Nat.add_comm]

/-- A successful `findFromAux` search returns a genuine match at the first
matching position at or after the start of the search. -/
theorem findFromAux_sound (mAt : Nat → Option Nat) :
    ∀ (n pos s l : Nat), findFromAux mAt n pos = some (s, l) →
      mAt s = some l ∧ pos ≤ s ∧ s < pos + n ∧ ∀ j, pos ≤ j → j < s → mAt j = none := by
  intro n
  induction n with
  | zero => intro pos s l h; simp [findFromAux] at h
  | succ m ih =>
    intro pos s l h
    cases hm : mAt pos with
    | some len =>
      simp only [findFromAux, hm, Option.some.injEq, Prod.mk.injEq] at h
      obtain ⟨hs, hl⟩ := h
      subst hs; subst hl
      exact ⟨hm, le_refl _, by omega, fun j hj1 hj2 => absurd hj2 (by omega)⟩
    | none =>
      simp only [findFromAux, hm] at h
      obtain ⟨h1, h2, h3, h4⟩ := ih (pos + 1) s l h
      refine ⟨h1, by omega, by omega, ?_⟩
      intro j hj1 hj2
      by_cases hjp : j = pos
      · subst hjp; exact hm
      · exact h4 j (by omega) hj2

/-- An exhausted `findFromAux` search means no position in the searched
range matches. -/
theorem findFromAux_none (mAt : Nat → Option Nat) :
    ∀ (n pos : Nat), findFromAux mAt n pos = none →
      ∀ j, pos ≤ j → j < pos + n → mAt j = none := by
  intro n
  induction n with
  | zero => intro pos h j hj1 hj2; omega
  | succ m ih =>
    intro pos h j hj1 hj2
    cases hm : mAt pos with
    | some len => simp [findFromAux, hm] at h
    | none =>
      simp only [findFromAux, hm] at h
      by_cases hjp : j = pos
      · subst hjp; exact hm
      · exact ih (pos + 1) h j (by omega) (by omega)

/-- Every pair reported by the `find_iter` loop is a genuine match starting
at or after the loop's current position. -/
theorem findIterAux_sound (mAt : Nat → Option Nat) (totalLen : Nat) :
    ∀ (fuel pos : Nat) (sl : Nat × Nat), sl ∈ findIterAux mAt totalLen fuel pos →
      mAt sl.1 = some sl.2 ∧ pos ≤ sl.1 := by
  intro fuel
  induction fuel with
  | zero => intro pos sl h; simp [findIterAux] at h
  | succ m ih =>
    intro pos sl h
    cases hf : findFromAux mAt (totalLen + 1 - pos) pos with
    | none => simp [findIterAux, hf] at h
    | some sl0 =>
      obtain ⟨s, len⟩ := sl0
      simp only [findIterAux, hf, List.mem_cons] at h
      obtain ⟨h1, h2, h3, h4⟩ := findFromAux_sound mAt _ pos s len hf
      cases h with
      | inl heq => subst heq; exact ⟨h1, h2⟩
      | inr hmem =>
        obtain ⟨hm1, hm2⟩ := ih _ sl hmem
        refine ⟨hm1, ?_⟩
        split at hm2 <;> omega

/-- Successive pairs reported by the `find_iter` loop do not overlap and
strictly advance. -/
theorem findIterAux_chain (mAt : Nat → Option Nat) (totalLen : Nat) :
    ∀ (fuel pos : Nat),
      List.Chain' (fun a b : Nat × Nat => a.1 + a.2 ≤ b.1 ∧ a.1 < b.1)
        (findIterAux mAt totalLen fuel pos) := by
  intro fuel
  induction fuel with
  | zero => intro pos; simp [findIterAux]
  | succ m ih =>
    intro pos
    cases hf : findFromAux mAt (totalLen + 1 - pos) pos with
    | none => simp [findIterAux, hf]
    | some sl0 =>
      obtain ⟨s, len⟩ := sl0
      simp only [findIterAux, hf]
      rw [List.chain'_cons']
      refine ⟨?_, ih _⟩
      intro y hy
      have hmem := List.mem_of_mem_head? hy
      obtain ⟨_, hge⟩ := findIterAux_sound mAt totalLen m _ y hmem
      constructor <;> (split at hge <;> simp <;> omega)

/-- C7: text evaluation reports all non-overlapping regex matches with
leftmost semantics, derives for each a 1-indexed line and column by
counting the line breaks among the characters preceding the match offset
(the column counts the characters since the last line break), attaches the
trimmed enclosing line as context, and substitutes the literal matched
text for the `{match}` placeholder in the message template; in
particular the content `"// TODO: x\nfn f() {}"` under the
case-insensitive bare-word TODO rule yields exactly one match, at line 1,
column 4, with matched text `TODO`. -/
theorem c7_text_rule_locations_and_matches :
    (∀ (content : Str) (offset : Nat),
        get_match_location content offset =
          (specLine content offset, specCol content offset, specContext content offset)) ∧
    (∀ (prog : RegexProg) (content : Str) (sl : Nat × Nat),
        sl ∈ find_iter prog content → matchAt prog content sl.1 = some sl.2) ∧
    (∀ (prog : RegexProg) (content : Str),
        List.Chain' (fun a b : Nat × Nat => a.1 + a.2 ≤ b.1 ∧ a.1 < b.1)
          (find_iter prog content)) ∧
    (∀ (prog : RegexProg) (content : Str) (s l : Nat) (rest : List (Nat × Nat)),
        find_iter prog content = (s, l) :: rest →
          matchAt prog content s = some l ∧ ∀ j, j < s → matchAt prog content j = none) ∧
    (∀ (prog : RegexProg) (content : Str),
        find_iter prog content = [] →
          ∀ i, i ≤ content.length → matchAt prog content i = none) ∧
    (∀ (pattern : CompiledRegex) (fp : RPath) (content : Str) (m : PatternMatch),
        m ∈ apply_regex_pattern pattern fp content →
          ∃ sl, sl ∈ find_iter pattern.regex content ∧
            m.matched_text = (content.drop sl.1).take sl.2 ∧
            m.line_number = some (specLine content sl.1) ∧
            m.column_number = some (specCol content sl.1) ∧
            m.context = some (specContext content sl.1) ∧
            m.message = replaceAll (cs "{match}") m.matched_text pattern.message_template) ∧
    compileRegex (cs "\\bTODO\\b") false = some progTODO ∧
    apply_regex_pattern ruleTODO [cs "src", cs "main.rs"] contentTODO =
      [{ rule_id := cs "todo_comments"
         file_path := [cs "src", cs "main.rs"]
         line_number := some 1
         column_number := some 4
         matched_text := cs "TODO"
         message := cs "Development marker detected: TODO"
         severity := .error
         context := some (cs "// TODO: x") }] := by
  refine ⟨get_match_location_spec, ?_, ?_, ?_, ?_, ?_, by decide, by decide⟩
  · intro prog content sl h
    exact (findIterAux_sound (matchAt prog content) content.length _ 0 sl h).1
  · intro prog content
    exact findIterAux_chain (matchAt prog content) content.length _ 0
  · intro prog content s l rest h
    simp only [find_iter] at h
    cases hf : findFromAux (matchAt prog content) (content.length + 1) 0 with
    | none => simp [findIterAux, Nat.sub_zero, hf] at h
    | some sl0 =>
      obtain ⟨s0, l0⟩ := sl0
      simp only [findIterAux, Nat.sub_zero, hf, List.cons.injEq, Prod.mk.injEq] at h
      obtain ⟨⟨hs, hl⟩, _⟩ := h
      subst hs; subst hl
      obtain ⟨h1, _, _, h4⟩ := findFromAux_sound (matchAt prog content) _ 0 s0 l0 hf
      exact ⟨h1, fun j hj => h4 j (Nat.zero_le j) hj⟩
  · intro prog content h i hi
    simp only [find_iter] at h
    cases hf : findFromAux (matchAt prog content) (content.length + 1) 0 with
    | none =>
      exact findFromAux_none (matchAt prog content) _ 0 hf i (Nat.zero_le i) (by omega)
    | some sl0 =>
      obtain ⟨s0, l0⟩ := sl0
      simp [findIterAux, Nat.sub_zero, hf] at h
  · intro pattern fp content m hm
    simp only [apply_regex_pattern, List.mem_filterMap] at hm
    obtain ⟨sl, hsl, hf⟩ := hm
    refine ⟨sl, hsl, ?_⟩
    by_cases hex : should_exclude_match pattern.exclude_conditions fp
        ((content.drop sl.1).take sl.2) content sl.1
    · rw [if_pos hex] at hf
      exact absurd hf (by simp)
    · rw [if_neg hex] at hf
      have hm2 := Option.some.inj hf
      subst hm2
      simp [get_match_location_spec]

/-- C7 witness: the theorem's match-soundness conjunct applied to the
end-to-end TODO example, whose sole reported match is `(3, 4)`. -/
theorem c7_text_rule_locations_and_matches_witness :
    matchAt progTODO contentTODO 3 = some 4 :=
  c7_text_rule_locations_and_matches.2.1 progTODO contentTODO (3, 4) (by decide)

end RustGuardian
